import Mathlib

/-!
Shallow embedding of the ghpm package manager core (Go sources under
internal/ghpm, internal/source, internal/state, internal/manifest) for
checking the natural-language specification against the code.

Pure Go functions become Lean functions; the filesystem under the install
root becomes an explicit association list of paths to nodes; the pieces that
talk to the network, to YAML/JSON decoding or to the package directory
(HTTP client, archive byte streams, regexp matching, manifest loading)
are collaborator boundaries and enter as fields of an `Env` record, exactly
at the call sites where the Go code crosses into them.
-/

namespace Ghpm

/-! ## Go path/filepath helpers (unix rules), used throughout the core. -/

/-- Structural split of a string on a separator character (the kernel can
    evaluate this, unlike the position-based `String.splitOn`); agrees with
    Go `strings.Split` for a one-character separator. -/
def splitOnCharL (sep : Char) : List Char → List String
  | [] => [""]
  | c :: cs =>
    let r := splitOnCharL sep cs
    if c = sep then "" :: r
    else
      match r with
      | [] => [String.mk [c]]
      | s :: rest => String.mk (c :: s.toList) :: rest

def splitOnChar (sep : Char) (s : String) : List String :=
  splitOnCharL sep s.toList

def splitSlash (s : String) : List String := splitOnChar '/' s

/-- Go `strings.HasPrefix` (structural). -/
def strStartsWith (s pre : String) : Bool := pre.toList.isPrefixOf s.toList

/-- Go `strings.HasSuffix` (structural). -/
def strEndsWith (s suf : String) : Bool := suf.toList.isSuffixOf s.toList

/-- Go `filepath.Clean` (unix): collapse duplicate separators, drop `.`
    elements, resolve `..` against earlier components, keep rootedness. -/
def goClean (path : String) : String :=
  if path = "" then "." else
  let rooted := strStartsWith path "/"
  let comps := (splitSlash path).filter (fun c => c ≠ "" && c ≠ ".")
  let out := comps.foldl (fun acc c =>
    if c = ".." then
      match acc with
      | [] => if rooted then [] else [".."]
      | last :: rest => if last = ".." then c :: acc else rest
    else c :: acc) []
  let body := String.intercalate "/" out.reverse
  if rooted then (if body = "" then "/" else "/" ++ body)
  else (if body = "" then "." else body)

/-- Go `filepath.Join`: empty elements are ignored, the rest are joined
    with `/` and the result is cleaned; all-empty input yields `""`. -/
def goJoinList (elems : List String) : String :=
  let ne := elems.filter (fun e => e ≠ "")
  if ne = [] then "" else goClean (String.intercalate "/" ne)

def goJoin (a b : String) : String := goJoinList [a, b]

/-- Go `filepath.Dir`: everything up to and including the final slash,
    cleaned; `.` when there is no slash. -/
def goDir (path : String) : String :=
  let parts := splitSlash path
  if parts.length ≤ 1 then goClean ""
  else goClean (String.intercalate "/" (parts.dropLast) ++ "/")

/-- Go `path.Base` (used via `filepath.Base` on slash paths). -/
def goBase (path : String) : String :=
  if path = "" then "." else
  let parts := (splitSlash path).filter (fun c => c ≠ "")
  match parts.reverse with
  | [] => "/"
  | b :: _ => b

/-- Go `strings.TrimPrefix`. -/
def trimPfx (s pre : String) : String :=
  if strStartsWith s pre then String.mk (s.toList.drop pre.toList.length)
  else s

/-- Association-list lookup, standing in for a Go map read. -/
def lookupA {α : Type} : List (String × α) → String → Option α
  | [], _ => none
  | e :: rest, k => if e.1 = k then some e.2 else lookupA rest k

/-- Association-list insert-or-replace, standing in for a Go map write. -/
def upsertA {α : Type} (l : List (String × α)) (k : String) (v : α) :
    List (String × α) :=
  (k, v) :: l.filter (fun e => e.1 ≠ k)

def joinComma (l : List String) : String := String.intercalate ", " l

instance {e a : Type} [DecidableEq e] [DecidableEq a] :
    DecidableEq (Except e a) := fun x y =>
  match x, y with
  | .error e1, .error e2 =>
    if h : e1 = e2 then .isTrue (by rw [h])
    else .isFalse (fun hc => by cases hc; exact h rfl)
  | .ok a1, .ok a2 =>
    if h : a1 = a2 then .isTrue (by rw [h])
    else .isFalse (fun hc => by cases hc; exact h rfl)
  | .error _, .ok _ => .isFalse (fun hc => by cases hc)
  | .ok _, .error _ => .isFalse (fun hc => by cases hc)

/-! ## Go `path/filepath.Match` (unix), the glob matcher behind pick/omit.

`kleene` matches any run of non-separator characters, `qmark` one
non-separator character, bracket classes support ranges and `^` negation
with backslash escapes.  A malformed pattern makes Go return
`ErrBadPattern`; the callers in archive.go discard the error, so a
malformed pattern behaves as a non-match, which the model returns directly
as `false` (`none` from the class parser). -/

/-- Go `getEsc`: one (possibly escaped) class character; `none` models
    `ErrBadPattern`. -/
def getEsc : List Char → Option (Char × List Char)
  | [] => none
  | c :: rest =>
    if c = '-' then none
    else if c = ']' then none
    else if c = '\\' then
      match rest with
      | [] => none
      | d :: r => some (d, r)
    else some (c, rest)

/-- The character-range loop of Go `matchChunk`'s `[` case: scans ranges
    until an unescaped `]`, accumulating whether the name character `c`
    fell inside any range; `none` models `ErrBadPattern`.  The fuel is an
    upper bound on the pattern length, enough because every iteration
    consumes at least one pattern character. -/
def parseClassLoop (c : Char) : Nat → Bool → Nat → List Char →
    Option (Bool × List Char)
  | 0, _, _, _ => none
  | fuel + 1, found, nrange, cs =>
    match cs with
    | ']' :: rest =>
      if nrange > 0 then some (found, rest)
      else none
    | _ =>
      match getEsc cs with
      | none => none
      | some (lo, cs1) =>
        match cs1 with
        | '-' :: cs2 =>
          match getEsc cs2 with
          | none => none
          | some (hi, cs3) =>
            parseClassLoop c fuel (found || (lo ≤ c && c ≤ hi)) (nrange + 1) cs3
        | _ =>
          parseClassLoop c fuel (found || (lo ≤ c && c ≤ lo)) (nrange + 1) cs1

/-- Bracket-class match after the opening `[`: optional `^` negation, then
    the range loop.  Returns the match verdict for `c` and the rest of the
    pattern, or `none` for a malformed class. -/
def parseClass (p : List Char) (c : Char) : Option (Bool × List Char) :=
  match p with
  | '^' :: rest =>
    (parseClassLoop c (rest.length + 1) false 0 rest).map
      (fun r => (!r.1, r.2))
  | _ => (parseClassLoop c (p.length + 1) false 0 p).map id

/-- Recursive formulation of Go `path.Match` on character lists.  A `*`
    never crosses a separator, `?` consumes one non-separator character,
    classes go through `parseClass`; pattern errors surface as `false`
    exactly as the Go callers (which discard `err`) observe them.  The
    fuel bounds the combined length of pattern and name, each recursive
    call strictly shrinking it. -/
def goMatchFuel : Nat → List Char → List Char → Bool
  | 0, _, _ => false
  | _ + 1, [], [] => true
  | _ + 1, [], _ :: _ => false
  | fuel + 1, '*' :: p, n =>
    goMatchFuel fuel p n ||
      (match n with
       | [] => false
       | c :: n2 => c ≠ '/' && goMatchFuel fuel ('*' :: p) n2)
  | fuel + 1, '?' :: p, c :: n => c ≠ '/' && goMatchFuel fuel p n
  | _ + 1, '?' :: _, [] => false
  | fuel + 1, '\\' :: rest, n =>
    (match rest, n with
     | c :: p, d :: n2 => c = d && goMatchFuel fuel p n2
     | _, _ => false)
  | fuel + 1, '[' :: p, c :: n =>
    (match parseClass p c with
     | some (ok, rest) => ok && goMatchFuel fuel rest n
     | none => false)
  | _ + 1, '[' :: _, [] => false
  | fuel + 1, c :: p, d :: n => c = d && goMatchFuel fuel p n
  | _ + 1, _ :: _, [] => false

def goMatchAux (p n : List Char) : Bool :=
  goMatchFuel (p.length + n.length + 1) p n

/-- Go `filepath.Match` with the error discarded, as the archive filter
    callers use it. -/
def goMatch (pattern name : String) : Bool :=
  goMatchAux pattern.toList name.toList

/-! ## Release descriptors and version comparison (internal/source/source.go).

Go `int` is 64-bit on the supported targets, so the digit accumulator in
`parseSemver` wraps modulo 2^64 and comparisons are signed. -/

def U64 : Nat := 18446744073709551616

def I63 : Nat := 9223372036854775808

/-- View a wrapped 64-bit accumulator as the signed Go `int` it denotes. -/
def toInt64 (n : Nat) : Int :=
  if n < I63 then (n : Int) else (n : Int) - (U64 : Int)

/-- The per-part digit loop of Go `parseSemver`: the numeric prefix of the
    part, accumulated as `n = n*10 + digit` on a wrapping 64-bit int. -/
def numericPrefixVal (s : String) : Nat :=
  (s.toList.takeWhile (fun c => '0' ≤ c && c ≤ '9')).foldl
    (fun n c => (n * 10 + (c.toNat - 48)) % U64) 0

structure Asset where
  name : String := ""
  url : String := ""
  size : Int := 0
  deriving Repr, DecidableEq

/-- `source.Release`; `published` is the decoded timestamp as an integer
    instant (zero value 0), since only its ordering is ever used. -/
structure Release where
  tag : String := ""
  id : Int := 0
  published : Int := 0
  assets : List Asset := []
  deriving Repr, DecidableEq

def emptyRelease : Release := {}

/-- Go `parseSemver`: strip one leading `v`, split on `.`, require at least
    two parts, take the numeric prefix of each of the first three parts with
    a missing third part as 0. -/
def parseSemver (tag : String) : Option (Nat × Nat × Nat) :=
  let t := trimPfx tag "v"
  let parts := splitOnChar '.' t
  if parts.length < 2 then none
  else
    some (numericPrefixVal (parts.headI),
          numericPrefixVal ((parts.drop 1).headI),
          match parts.drop 2 with
          | [] => 0
          | p :: _ => numericPrefixVal p)

/-- Signed comparison of two wrapped accumulators, the `va[i] > vb[i]` /
    `va[i] < vb[i]` tests of Go `compareSemver`. -/
def cmp64 (a b : Nat) : Int :=
  if toInt64 a > toInt64 b then 1 else if toInt64 a < toInt64 b then -1 else 0

/-- Go `compareSemver`: `none` when either tag fails to parse, otherwise
    the first nonzero of the three component comparisons. -/
def compareSemver (a b : String) : Option Int :=
  match parseSemver a, parseSemver b with
  | some x, some y =>
    some (if cmp64 x.1 y.1 ≠ 0 then cmp64 x.1 y.1
          else if cmp64 x.2.1 y.2.1 ≠ 0 then cmp64 x.2.1 y.2.1
          else cmp64 x.2.2 y.2.2)
  | _, _ => none

/-- Go `strings.Compare` on the UTF-8 code points (byte order and code
    point order agree on the ASCII tags exercised here). -/
def strCompare (a b : String) : Int :=
  if a < b then -1 else if b < a then 1 else 0

/-- Go `compareReleases`: semver verdict when both tags parse, otherwise
    published-time order, otherwise lexicographic tags. -/
def compareReleases (tagA tagB : String) (timeA timeB : Int) : Int :=
  match compareSemver tagA tagB with
  | some score => score
  | none =>
    if timeA > timeB then 1
    else if timeB > timeA then -1
    else strCompare tagA tagB

/-! ## Archive listing and filtering (internal/ghpm/archive.go).

An opened archive stream is a collaborator (bytes on disk); the model
receives its decoded entry sequence and applies the same strip and
pick/omit logic as `listTarFiles` / `listZipFiles` / `extractTar` /
`extractZip`. -/

/-- Tar entry type flags as the Go code distinguishes them (`TypeReg`,
    legacy `TypeRegA`, `TypeDir`, anything else).  Zip entries use `dir`
    for directory entries and `reg` for the rest. -/
inductive TarType
  | reg
  | regA
  | dir
  | other
  deriving Repr, DecidableEq

/-- One decoded archive entry: the header name plus the attributes of its
    content that the code reads (permission bits, SHA-256, size). -/
structure TarEntry where
  name : String := ""
  typeflag : TarType := .reg
  mode : Int := 0
  sha : String := ""
  size : Int := 0
  deriving Repr, DecidableEq

/-- Go `stripComponents`: nonpositive count cleans only; otherwise split
    the cleaned path on the separator, drop entries with at most `count`
    components, and rejoin the rest. -/
def stripComponents (path : String) (count : Int) : String :=
  if count ≤ 0 then goClean path
  else
    let parts := splitSlash (goClean path)
    if parts.length ≤ count.toNat then ""
    else goJoinList (parts.drop count.toNat)

/-- Go `shouldInclude`: a non-empty pick list wins (include iff some pick
    glob matches), else a non-empty omit list excludes matches, else
    include. -/
def shouldInclude (name : String) (pick omitl : List String) : Bool :=
  if pick.length > 0 then pick.any (fun p => goMatch p name)
  else if omitl.length > 0 then !(omitl.any (fun o => goMatch o name))
  else true

structure ExtractFrom where
  type : String := ""
  name : String := ""
  pattern : String := ""
  url : String := ""
  path : String := ""
  deriving Repr, DecidableEq

structure ExtractAction where
  extractFrom : ExtractFrom := {}
  format : String := ""
  stripComponents : Int := 0
  targetDir : String := ""
  pick : List String := []
  omitl : List String := []
  deriving Repr, DecidableEq

/-- The entry loop of Go `listTarFiles` applied to the decoded entries:
    strip, drop emptied names, keep regular files, and partition them into
    included and skipped by `shouldInclude`. -/
def listTarFilesOn (act : ExtractAction) : List TarEntry →
    List String × List String
  | [] => ([], [])
  | e :: rest =>
    let r := listTarFilesOn act rest
    let name := stripComponents e.name act.stripComponents
    if name = "" then r
    else if e.typeflag = .reg ∨ e.typeflag = .regA then
      if shouldInclude name act.pick act.omitl then (name :: r.1, r.2)
      else (r.1, name :: r.2)
    else r

/-- The entry loop of Go `listZipFiles`: same shape, but directory entries
    are skipped and every other entry is treated as a file. -/
def listZipFilesOn (act : ExtractAction) : List TarEntry →
    List String × List String
  | [] => ([], [])
  | e :: rest =>
    let r := listZipFilesOn act rest
    let name := stripComponents e.name act.stripComponents
    if name = "" then r
    else if e.typeflag = .dir then r
    else if shouldInclude name act.pick act.omitl then (name :: r.1, r.2)
    else (r.1, name :: r.2)

/-- Go `inferArchiveFormat`: suffix dispatch. -/
def inferArchiveFormat (name : String) : String :=
  if strEndsWith name ".tar.gz" || strEndsWith name ".tgz" then "tar.gz"
  else if strEndsWith name ".tar.xz" then "tar.xz"
  else if strEndsWith name ".zip" then "zip"
  else ""

def formatHint (hintName path : String) : String :=
  if hintName ≠ "" then hintName else path

/-- The shared format-resolution prologue of `extractArchive` and
    `listArchiveFiles`. -/
def resolveFormat (fmt hintName path : String) : Except String String :=
  if fmt = "" ∨ fmt = "auto" then
    let f := inferArchiveFormat hintName
    let f := if f = "" then inferArchiveFormat path else f
    if f = "" then
      .error ("cannot infer archive format for " ++ formatHint hintName path ++
        "; set extract.format")
    else .ok f
  else .ok fmt

/-! ## Manifest model (internal/manifest/manifest.go). -/

structure TemplateContext where
  version : String := ""
  tag : String := ""
  os : String := ""
  arch : String := ""
  repo : String := ""
  name : String := ""
  deriving Repr, DecidableEq

def startsWithL (pre cs : List Char) : Bool := pre.isPrefixOf cs

/-- The single left-to-right pass of the `strings.NewReplacer` inside Go
    `ExpandTemplate`: at each position the six literal placeholders (which
    are mutually non-prefix) are tried, the replacement text is emitted and
    never rescanned.  The fuel is the input length; every step consumes at
    least one input character, so it never runs out. -/
def expandGoFuel (ctx : TemplateContext) : Nat → List Char → List Char
  | 0, cs => cs
  | fuel + 1, cs =>
    match cs with
    | [] => []
    | c :: rest =>
      if startsWithL "{version}".toList (c :: rest) then
        ctx.version.toList ++ expandGoFuel ctx fuel ((c :: rest).drop 9)
      else if startsWithL "{tag}".toList (c :: rest) then
        ctx.tag.toList ++ expandGoFuel ctx fuel ((c :: rest).drop 5)
      else if startsWithL "{os}".toList (c :: rest) then
        ctx.os.toList ++ expandGoFuel ctx fuel ((c :: rest).drop 4)
      else if startsWithL "{arch}".toList (c :: rest) then
        ctx.arch.toList ++ expandGoFuel ctx fuel ((c :: rest).drop 6)
      else if startsWithL "{repo}".toList (c :: rest) then
        ctx.repo.toList ++ expandGoFuel ctx fuel ((c :: rest).drop 6)
      else if startsWithL "{name}".toList (c :: rest) then
        ctx.name.toList ++ expandGoFuel ctx fuel ((c :: rest).drop 6)
      else c :: expandGoFuel ctx fuel rest

def expandGo (ctx : TemplateContext) (cs : List Char) : List Char :=
  expandGoFuel ctx cs.length cs

/-- Go `ExpandTemplate`. -/
def expandTemplate (input : String) (ctx : TemplateContext) : String :=
  String.mk (expandGo ctx input.toList)

structure AssetAction where
  name : String := ""
  pattern : String := ""
  target : String := ""
  mode : String := ""
  preserve : Bool := false
  deriving Repr, DecidableEq

structure URLAction where
  url : String := ""
  target : String := ""
  mode : String := ""
  preserve : Bool := false
  deriving Repr, DecidableEq

structure FileAction where
  path : String := ""
  target : String := ""
  mode : String := ""
  preserve : Bool := false
  deriving Repr, DecidableEq

structure SymlinkAction where
  target : String := ""
  toDest : String := ""
  deriving Repr, DecidableEq

structure MkdirAction where
  path : String := ""
  mode : String := ""
  owner : String := ""
  group : String := ""
  deriving Repr, DecidableEq

/-- Go `manifest.Action` is a `Type` string plus one non-nil payload per
    variant (enforced by `UnmarshalYAML`); the validated form is this sum. -/
inductive Action
  | asset (a : AssetAction)
  | url (a : URLAction)
  | file (a : FileAction)
  | symlink (a : SymlinkAction)
  | extract (a : ExtractAction)
  | mkdir (a : MkdirAction)
  deriving Repr, DecidableEq

structure SourceSpec where
  kind : String := ""
  repo : String := ""
  deriving Repr, DecidableEq

structure Manifest where
  name : String := ""
  description : String := ""
  source : SourceSpec := {}
  install : List Action := []
  postInstall : List String := []
  postRemove : List String := []
  path : String := ""
  deriving Repr, DecidableEq

def Manifest.packageDir (m : Manifest) : String := goDir m.path

/-! ## Persistent state (internal/state/state.go). -/

structure InstalledEntry where
  version : String := ""
  receipt : String := ""
  installedAt : String := ""
  deriving Repr, DecidableEq

structure ReceiptSource where
  kind : String := ""
  repo : String := ""
  tag : String := ""
  releaseId : Int := 0
  deriving Repr, DecidableEq

structure Platform where
  os : String := ""
  arch : String := ""
  deriving Repr, DecidableEq

structure Artifact where
  type : String := ""
  name : String := ""
  url : String := ""
  sha256 : String := ""
  size : Int := 0
  deriving Repr, DecidableEq

structure ReceiptFile where
  path : String := ""
  type : String := ""
  mode : Int := 0
  sha256 : String := ""
  toDest : String := ""
  preserve : Bool := false
  deriving Repr, DecidableEq

structure Receipt where
  schema : Int := 0
  name : String := ""
  source : ReceiptSource := {}
  platform : Platform := {}
  artifacts : List Artifact := []
  files : List ReceiptFile := []
  deriving Repr, DecidableEq

/-- The state directory contents: the installed index plus one receipt per
    package.  Receipts are keyed by package name, standing in for the file
    `state/receipts/<name>.json` that `ReceiptPath` derives from the name
    (and that the `receipt` field of an index entry points back to). -/
structure Store where
  installed : List (String × InstalledEntry) := []
  receipts : List (String × Receipt) := []
  deriving Repr, DecidableEq

/-- `state.RecordInstall`: upsert the index entry; `installedAt` is the
    wall-clock string, supplied by the caller. -/
def RecordInstall (store : Store) (name version now : String) : Store :=
  let entry : InstalledEntry :=
    { version := version,
      receipt := "receipts/" ++ name ++ ".json",
      installedAt := now }
  { store with installed := upsertA store.installed name entry }

/-- `state.RecordRemove`: drop the index entry. -/
def RecordRemove (store : Store) (name : String) : Store :=
  { store with installed := store.installed.filter (fun e => e.1 ≠ name) }

/-- `state.SaveReceipt` (atomic tmp+rename write, modelled as the update). -/
def SaveReceipt (store : Store) (name : String) (r : Receipt) : Store :=
  { store with receipts := upsertA store.receipts name r }

/-! ## The filesystem under the install root.

A disk is an association list from absolute paths to nodes.  `os.Remove`
fails on a missing path or a non-empty directory; `os.MkdirAll` fails when
a chain element exists as a non-directory; `os.Rename` of a file fails when
the destination is a directory.  Symbolic links are nodes like any other
(the code only ever stats or replaces them whole). -/

inductive Node
  | file (mode : Int) (sha : String) (size : Int)
  | dir
  | symlink (dest : String)
  deriving Repr, DecidableEq

abbrev Disk := List (String × Node)

def diskGet (d : Disk) (p : String) : Option Node :=
  lookupA d p

def diskSet (d : Disk) (p : String) (n : Node) : Disk :=
  upsertA d p n

def diskDel (d : Disk) (p : String) : Disk :=
  List.filter (fun e => e.1 ≠ p) d

/-- `q` lies strictly under `p` in the directory tree. -/
def isUnder (p q : String) : Bool := strStartsWith q (p ++ "/")

def diskHasChild (d : Disk) (p : String) : Bool :=
  List.any d (fun e => isUnder p e.1)

/-- Go `os.Stat` reduced to existence, which is all the core reads off it. -/
def osStat (d : Disk) (p : String) : Bool := (diskGet d p).isSome

/-- Go `os.Remove`. -/
def osRemove (d : Disk) (p : String) : Except String Disk :=
  match diskGet d p with
  | none => .error ("remove " ++ p ++ ": no such file or directory")
  | some _ =>
    if diskHasChild d p then
      .error ("remove " ++ p ++ ": directory not empty")
    else .ok (diskDel d p)

/-- The chain of component prefixes `os.MkdirAll` creates in order. -/
def pathChain (p : String) : List String :=
  let parts := splitSlash p
  match parts with
  | "" :: rest =>
    (List.range rest.length).map
      (fun i => "/" ++ String.intercalate "/" (rest.take (i + 1)))
  | _ =>
    (List.range parts.length).map
      (fun i => String.intercalate "/" (parts.take (i + 1)))

/-- Go `os.MkdirAll` at 0755: each chain element must be a directory or
    absent (created); an existing non-directory is `ENOTDIR`. -/
def osMkdirAll (d : Disk) (p : String) : Except String Disk :=
  (pathChain (goClean p)).foldlM
    (fun d q =>
      if q = "/" ∨ q = "." then .ok d
      else
        match diskGet d q with
        | some .dir => .ok d
        | some _ => .error ("mkdir " ++ q ++ ": not a directory")
        | none => .ok (diskSet d q .dir)) d

/-- Go `os.Rename` as the atomic-replace steps use it: source must exist,
    and renaming over an existing directory fails. -/
def osRename (d : Disk) (src dst : String) : Except String Disk :=
  match diskGet d src with
  | none => .error ("rename " ++ src ++ ": no such file or directory")
  | some n =>
    match diskGet d dst with
    | some .dir => .error ("rename " ++ dst ++ ": file exists")
    | _ => .ok (diskSet (diskDel d src) dst n)

/-! ## Collaborator boundary.

`Env` carries exactly what the core reads from outside the install root:
the decoded release lists the forge HTTP APIs would return (pre-filter),
the download cache result for a URL (`Manager.fetchURL`), the decoded entry
stream of an archive at a local path, the regexp-backed
`manifest.MatchPattern`, the loaded manifest for a package name, hashing of
package-directory files, and the runtime platform strings. -/

structure GithubRelease where
  tagName : String := ""
  id : Int := 0
  draft : Bool := false
  prerelease : Bool := false
  published : Int := 0
  assets : List Asset := []
  deriving Repr, DecidableEq

structure GitlabRelease where
  tagName : String := ""
  released : Int := 0
  assets : List Asset := []
  deriving Repr, DecidableEq

/-- What `Manager.fetchURL` returns: cached local path, SHA-256 and size of
    the fetched bytes, and the sanitised hint name. -/
structure FetchResult where
  localPath : String := ""
  sum : String := ""
  size : Int := 0
  hintName : String := ""
  deriving Repr, DecidableEq

structure Env where
  goos : String := "linux"
  goarch : String := "amd64"
  loadManifest : String → Except String Manifest := fun n =>
    .error ("open " ++ n ++ "/package.yaml: no such file or directory")
  githubList : String → Except String (List GithubRelease) := fun _ =>
    .error "github releases: 404 Not Found"
  gitlabList : String → Except String (List GitlabRelease) := fun _ =>
    .error "gitlab releases: 404 Not Found"
  fetch : String → Except String FetchResult := fun u =>
    .error ("download " ++ u ++ ": 404 Not Found")
  archive : String → Except String (List TarEntry) := fun _ =>
    .error "unexpected EOF"
  matchPattern : String → String → Bool := fun _ _ => false
  hashFileWS : String → Except String (String × Int) := fun p =>
    .error ("open " ++ p ++ ": no such file or directory")

def mapGitHubRelease (rel : GithubRelease) : Release :=
  { tag := rel.tagName,
    id := rel.id,
    published := rel.published,
    assets := rel.assets }

def mapGitLabRelease (rel : GitlabRelease) : Release :=
  { tag := rel.tagName, assets := rel.assets }

/-- The element Go's descending `sort.Slice` + `releases[0]` selects: a
    maximal release under `compareReleases` (the fold keeps the current
    best unless a strictly higher one appears, matching a stable selection
    of the comparator's maximum). -/
def pickHighestGithub (r0 : GithubRelease) (rest : List GithubRelease) :
    GithubRelease :=
  rest.foldl
    (fun best r =>
      if compareReleases r.tagName best.tagName r.published best.published > 0
      then r else best) r0

def pickHighestGitlab (r0 : GitlabRelease) (rest : List GitlabRelease) :
    GitlabRelease :=
  rest.foldl
    (fun best r =>
      if compareReleases r.tagName best.tagName r.released best.released > 0
      then r else best) r0

/-- `githubResolver.listReleases` after the HTTP GET and JSON decode:
    drop draft and prerelease entries. -/
def githubListReleases (env : Env) (repo : String) :
    Except String (List GithubRelease) :=
  (env.githubList repo).map
    (fun rs => rs.filter (fun r => !r.draft && !r.prerelease))

/-- `githubResolver.ResolveRelease`. -/
def githubResolveRelease (env : Env) (repo version : String) :
    Except String Release :=
  match githubListReleases env repo with
  | .error e => .error e
  | .ok releases =>
    match releases with
    | [] => .error ("no releases found for " ++ repo)
    | r0 :: rest =>
      if version ≠ "" then
        match releases.find? (fun r => r.tagName = version) with
        | some rel => .ok (mapGitHubRelease rel)
        | none => .error ("version " ++ version ++ " not found")
      else .ok (mapGitHubRelease (pickHighestGithub r0 rest))

/-- `gitlabResolver.ResolveRelease` (no draft/prerelease filtering). -/
def gitlabResolveRelease (env : Env) (repo version : String) :
    Except String Release :=
  match env.gitlabList repo with
  | .error e => .error e
  | .ok releases =>
    match releases with
    | [] => .error ("no releases found for " ++ repo)
    | r0 :: rest =>
      if version ≠ "" then
        match releases.find? (fun r => r.tagName = version) with
        | some rel => .ok (mapGitLabRelease rel)
        | none => .error ("version " ++ version ++ " not found")
      else .ok (mapGitLabRelease (pickHighestGitlab r0 rest))

/-- `httpResolver.ResolveRelease`: no discovery; an explicit version yields
    a release carrying only the tag. -/
def httpResolveRelease (version : String) : Except String Release :=
  if version = "" then .error "http source requires explicit --version"
  else .ok { tag := version }

/-- `source.NewResolver` followed by `ResolveRelease` on the selected
    driver. -/
def resolveWith (env : Env) (kind repo version : String) :
    Except String Release :=
  match kind with
  | "github" => githubResolveRelease env repo version
  | "gitlab" => gitlabResolveRelease env repo version
  | "http" => httpResolveRelease version
  | _ => .error ("unknown source kind \x22" ++ kind ++ "\x22")

/-- `source.SelectAsset`: exact name first, else the `MatchPattern`
    fallback, else an error. -/
def SelectAsset (env : Env) (release : Release) (action : AssetAction) :
    Except String Asset :=
  if action.name ≠ "" then
    match release.assets.find? (fun a => a.name = action.name) with
    | some a => .ok a
    | none => .error ("asset " ++ action.name ++ " not found")
  else if action.pattern ≠ "" then
    match release.assets.find? (fun a => env.matchPattern a.name action.pattern) with
    | some a => .ok a
    | none => .error ("asset matching \x22" ++ action.pattern ++ "\x22 not found")
  else .error "asset action requires name or pattern"

/-! ## Manager helpers (internal/ghpm/install.go). -/

/-- `Manager.resolveVersion`: empty source kind passes the requested
    version through untouched; an http source with an empty version
    short-circuits to an empty tag without consulting the driver; otherwise
    the driver resolves. -/
def resolveVersion (env : Env) (mf : Manifest) (version : String) :
    Except String (String × Release) :=
  if mf.source.kind = "" then .ok (version, emptyRelease)
  else if mf.source.kind = "http" ∧ version = "" then .ok ("", emptyRelease)
  else
    match resolveWith env mf.source.kind mf.source.repo version with
    | .error e => .error e
    | .ok release => .ok (release.tag, release)

/-- Go `normalizePathForReceipt`. -/
def normalizePathForReceipt (root target : String) : String :=
  if root = "/" then target
  else
    let trimmed := trimPfx target root
    if trimmed = "" then "/"
    else if strStartsWith trimmed "/" then trimmed
    else "/" ++ trimmed

/-- Go `parseMode`: `fmt.Sscanf(val, "%o")` with the error discarded — the
    maximal octal-digit prefix read as an octal integer, 0 on an empty or
    non-octal string. -/
def parseMode (val : String) : Int :=
  if val = "" then 0
  else
    ((val.toList.takeWhile (fun c => '0' ≤ c && c ≤ '7')).foldl
      (fun n c => n * 8 + ((c.toNat : Int) - 48)) 0)

/-- Go `okOwned`. -/
def okOwned (ownership : List (String × String)) (path pkg : String) : Bool :=
  lookupA ownership path = some pkg

/-- Go `Manager.checkConflicts` over the planned targets (the appending
    loop written as a recursion producing the same list in the same
    order). -/
def checkConflicts (root : String) (disk : Disk)
    (ownership : List (String × String)) (pkg : String) (force : Bool) :
    List String → List String
  | [] => []
  | target :: rest =>
    let relative := normalizePathForReceipt root target
    let ownedByOther :=
      match lookupA ownership relative with
      | some owner => owner != pkg
      | none => false
    if ownedByOther then
      relative :: checkConflicts root disk ownership pkg force rest
    else if osStat disk target && !force &&
        !okOwned ownership relative pkg then
      relative :: checkConflicts root disk ownership pkg force rest
    else checkConflicts root disk ownership pkg force rest

/-- Go `Manager.buildOwnership`: union the receipt file paths of every
    installed entry, later entries overwriting earlier ones; a missing
    receipt file is skipped silently.  (Go iterates its map in
    unspecified order; the model fixes the index order, which only matters
    when two receipts list the same path.) -/
def buildOwnership (store : Store) : List (String × String) :=
  store.installed.foldl
    (fun own e =>
      match lookupA store.receipts e.1 with
      | none => own
      | some receipt =>
        receipt.files.foldl (fun own f => upsertA own f.path e.1) own) []

/-- Go `installFileAtomic` over the disk model: ensure the parent chain,
    create `<target>.ghpm.new` with the copied bytes (their hash and size
    are those captured at plan time) and the chmod result, move any
    existing target to `<target>.ghpm.bak`, rename the new file over the
    target and drop the backup. -/
def installFileAtomic (d : Disk) (target sum : String) (size : Int)
    (mode : Int) : Except String Disk :=
  match osMkdirAll d (goDir target) with
  | .error e => .error e
  | .ok d =>
    let temp := target ++ ".ghpm.new"
    match diskGet d temp with
    | some .dir => .error ("open " ++ temp ++ ": is a directory")
    | _ =>
      let fmode : Int := if mode ≠ 0 then mode else 420
      let d := diskSet d temp (.file fmode sum size)
      let backup := target ++ ".ghpm.bak"
      let step2 : Except String Disk :=
        if osStat d target then osRename d target backup else .ok d
      match step2 with
      | .error e => .error e
      | .ok d =>
        match osRename d temp target with
        | .ok d2 => .ok (diskDel d2 backup)
        | .error e => .error e

/-- Go `createSymlinkAtomic` over the disk model. -/
def createSymlinkAtomic (d : Disk) (target dest : String) :
    Except String Disk :=
  match osMkdirAll d (goDir target) with
  | .error e => .error e
  | .ok d =>
    let tmp := target ++ ".ghpm.new"
    let d := diskDel d tmp
    let d := diskSet d tmp (.symlink dest)
    let backup := target ++ ".ghpm.bak"
    let step2 : Except String Disk :=
      if (diskGet d target).isSome then osRename d target backup else .ok d
    match step2 with
    | .error e => .error e
    | .ok d =>
      match osRename d tmp target with
      | .ok d2 => .ok (diskDel d2 backup)
      | .error e => .error e

/-! ## The plan.

Go's `plan` holds deferred closures and a shared pointer to the receipt
file list that the extract steps append to while running.  The model makes
each closure a `Step` value capturing exactly the variables the Go closure
captures, and threads the shared list through `StepState`. -/

/-- Mutable state a running step sees: the disk plus the receipt file list
    behind `plan.receiptFiles`. -/
structure StepState where
  disk : Disk := []
  files : List ReceiptFile := []
  deriving Repr, DecidableEq

inductive Step
  /-- the `mkdir` action's closure: `os.MkdirAll(target, 0755)` -/
  | stepMkdir (target : String)
  /-- the `symlink` action's closure: `createSymlinkAtomic(target, to)` -/
  | stepSymlink (target dest : String)
  /-- the closure shared by `file`, `url` and `asset`:
      `installFileAtomic(target, localPath, mode)`; the copied bytes carry
      the hash and size captured when the source was fetched or hashed -/
  | stepInstallFile (target sum : String) (size mode : Int)
  /-- the first extract closure: `extractArchive(sourcePath, hintName,
      workDir, targetDir, action)` -/
  | stepExtract (sourcePath hintName targetDir : String) (act : ExtractAction)
  /-- the second extract closure: `recordExtractedList(root, targetDir,
      files, receiptFiles)` -/
  | stepRecord (targetDir : String) (files : List String)
  deriving Repr, DecidableEq

/-- The entry loop of Go `extractTar`: strip, filter, create directories at
    0755 and write regular files with the archive entry's permission bits.
    (Legacy `TypeRegA` entries are listed but not handled by the extract
    switch, exactly as in the source.) -/
def extractTarOn (targetDir : String) (act : ExtractAction) :
    List TarEntry → Disk → Except String Disk
  | [], d => .ok d
  | e :: rest, d =>
    let name := stripComponents e.name act.stripComponents
    if name = "" then extractTarOn targetDir act rest d
    else if ¬shouldInclude name act.pick act.omitl then
      extractTarOn targetDir act rest d
    else
      let target := goJoin targetDir name
      match e.typeflag with
      | .dir =>
        match osMkdirAll d target with
        | .error err => .error err
        | .ok d2 => extractTarOn targetDir act rest d2
      | .reg =>
        match osMkdirAll d (goDir target) with
        | .error err => .error err
        | .ok d2 =>
          match diskGet d2 target with
          | some .dir => .error ("open " ++ target ++ ": is a directory")
          | _ =>
            extractTarOn targetDir act rest
              (diskSet d2 target (.file e.mode e.sha e.size))
      | _ => extractTarOn targetDir act rest d

/-- The entry loop of Go `extractZip`: directories from the archive are
    created, every other included entry is written as a file. -/
def extractZipOn (targetDir : String) (act : ExtractAction) :
    List TarEntry → Disk → Except String Disk
  | [], d => .ok d
  | e :: rest, d =>
    let name := stripComponents e.name act.stripComponents
    if name = "" then extractZipOn targetDir act rest d
    else if ¬shouldInclude name act.pick act.omitl then
      extractZipOn targetDir act rest d
    else
      let target := goJoin targetDir name
      if e.typeflag = .dir then
        match osMkdirAll d target with
        | .error err => .error err
        | .ok d2 => extractZipOn targetDir act rest d2
      else
        match osMkdirAll d (goDir target) with
        | .error err => .error err
        | .ok d2 =>
          match diskGet d2 target with
          | some .dir => .error ("open " ++ target ++ ": is a directory")
          | _ =>
            extractZipOn targetDir act rest
              (diskSet d2 target (.file e.mode e.sha e.size))

/-- Go `extractArchive`: resolve the format, read the archive, dispatch. -/
def extractArchive (env : Env) (path hintName targetDir : String)
    (act : ExtractAction) (d : Disk) : Except String Disk :=
  match resolveFormat act.format hintName path with
  | .error e => .error e
  | .ok fmt =>
    match env.archive path with
    | .error e => .error e
    | .ok entries =>
      if fmt = "tar.gz" ∨ fmt = "tar.xz" then
        extractTarOn targetDir act entries d
      else if fmt = "zip" then extractZipOn targetDir act entries d
      else .error ("unsupported archive format " ++ fmt)

/-- Go `recordExtractedList`: stat each listed file under the target
    directory (a missing one is an error), skip directories, and append a
    `file` receipt entry with the root-normalised path, the on-disk
    permission bits and the content hash. -/
def recordExtractedList (root targetDir : String) (files : List String)
    (st : StepState) : Except String StepState :=
  match files with
  | [] => .ok st
  | name :: rest =>
    let target := goJoin targetDir name
    match diskGet st.disk target with
    | none => .error ("stat " ++ target ++ ": no such file or directory")
    | some .dir => recordExtractedList root targetDir rest st
    | some (.symlink _) =>
      .error ("open " ++ target ++ ": invalid argument")
    | some (.file mode sha _) =>
      let entry : ReceiptFile :=
        { path := normalizePathForReceipt root target,
          type := "file",
          mode := mode % 512,
          sha256 := sha }
      recordExtractedList root targetDir rest
        { st with files := st.files ++ [entry] }

/-- Interpret one plan step, exactly the body of the Go closure it models. -/
def runStep (env : Env) (root : String) (st : StepState) :
    Step → Except String StepState
  | .stepMkdir target =>
    match osMkdirAll st.disk target with
    | .error e => .error e
    | .ok d => .ok { st with disk := d }
  | .stepSymlink target dest =>
    match createSymlinkAtomic st.disk target dest with
    | .error e => .error e
    | .ok d => .ok { st with disk := d }
  | .stepInstallFile target sum size mode =>
    match installFileAtomic st.disk target sum size mode with
    | .error e => .error e
    | .ok d => .ok { st with disk := d }
  | .stepExtract sourcePath hintName targetDir act =>
    match extractArchive env sourcePath hintName targetDir act st.disk with
    | .error e => .error e
    | .ok d => .ok { st with disk := d }
  | .stepRecord targetDir files =>
    recordExtractedList root targetDir files st

/-- The mutation loop of `Install`: run steps in order, stopping at the
    first error with the state reached so far. -/
def runSteps (env : Env) (root : String) :
    List Step → StepState → Option String × StepState
  | [], st => (none, st)
  | s :: rest, st =>
    match runStep env root st s with
    | .ok st2 => runSteps env root rest st2
    | .error e => (some e, st)

structure Plan where
  steps : List Step := []
  targets : List String := []
  initFiles : List ReceiptFile := []
  deriving Repr, DecidableEq

/-- Go `listArchiveFiles`. -/
def listArchiveFiles (env : Env) (path hintName : String)
    (act : ExtractAction) : Except String (List String × List String) :=
  match resolveFormat act.format hintName path with
  | .error e => .error e
  | .ok fmt =>
    match env.archive path with
    | .error e => .error e
    | .ok entries =>
      if fmt = "tar.gz" ∨ fmt = "tar.xz" then .ok (listTarFilesOn act entries)
      else if fmt = "zip" then .ok (listZipFilesOn act entries)
      else .error ("unsupported archive format " ++ fmt)

/-- Go `Manager.buildExtractPlan`: resolve the archive source (asset via a
    fresh resolver call on `ctx.Tag`, url via the cache, file from the
    package directory), list the archive, and emit the extract and record
    steps plus the per-file targets. -/
def buildExtractPlan (env : Env) (root : String) (mf : Manifest)
    (act : ExtractAction) (ctx : TemplateContext) :
    Except String (Plan × String × List String) :=
  let sourceHint : Except String (String × String) :=
    match act.extractFrom.type with
    | "asset" =>
      let assetAction : AssetAction :=
        { name := expandTemplate act.extractFrom.name ctx,
          pattern := expandTemplate act.extractFrom.pattern ctx }
      match resolveWith env mf.source.kind mf.source.repo ctx.tag with
      | .error e => .error e
      | .ok release =>
        match SelectAsset env release assetAction with
        | .error e => .error e
        | .ok asset =>
          match env.fetch asset.url with
          | .error e => .error e
          | .ok fr => .ok (fr.localPath, fr.hintName)
    | "url" =>
      match env.fetch (expandTemplate act.extractFrom.url ctx) with
      | .error e => .error e
      | .ok fr => .ok (fr.localPath, fr.hintName)
    | "file" =>
      let p := goJoin mf.packageDir (expandTemplate act.extractFrom.path ctx)
      .ok (p, goBase p)
    | other =>
      .error ("extract.from.type \x22" ++ other ++ "\x22 is not supported")
  match sourceHint with
  | .error e => .error e
  | .ok (sourcePath, hintName) =>
    let targetDir := goJoin root (expandTemplate act.targetDir ctx)
    match listArchiveFiles env sourcePath hintName act with
    | .error e => .error e
    | .ok (files, skipped) =>
      let archiveName := if hintName = "" then goBase sourcePath else hintName
      .ok
        ({ steps := [.stepExtract sourcePath hintName targetDir act,
                     .stepRecord targetDir files],
           targets := files.map (fun n => goJoin targetDir n),
           initFiles := [] },
         archiveName, skipped)

/-- One iteration of the action loop in Go `Manager.buildPlan`. -/
def buildPlanAction (env : Env) (root : String) (mf : Manifest)
    (release : Release) (ctx : TemplateContext)
    (acc : Plan × List Artifact) (act : Action) :
    Except String (Plan × List Artifact) :=
  match act with
  | .mkdir a =>
    let target := goJoin root (expandTemplate a.path ctx)
    let entry : ReceiptFile :=
      { path := expandTemplate a.path ctx,
        type := "dir",
        mode := parseMode a.mode }
    .ok
      ({ steps := acc.1.steps ++ [.stepMkdir target],
         targets := acc.1.targets ++ [target],
         initFiles := acc.1.initFiles ++ [entry] }, acc.2)
  | .symlink a =>
    let target := goJoin root (expandTemplate a.target ctx)
    let dest := expandTemplate a.toDest ctx
    let entry : ReceiptFile :=
      { path := expandTemplate a.target ctx,
        type := "symlink",
        toDest := dest }
    .ok
      ({ steps := acc.1.steps ++ [.stepSymlink target dest],
         targets := acc.1.targets ++ [target],
         initFiles := acc.1.initFiles ++ [entry] }, acc.2)
  | .file a =>
    let src := goJoin mf.packageDir a.path
    let target := goJoin root (expandTemplate a.target ctx)
    match env.hashFileWS src with
    | .error e => .error e
    | .ok (sum, size) =>
      let entry : ReceiptFile :=
        { path := expandTemplate a.target ctx,
          type := "file",
          mode := parseMode a.mode,
          sha256 := sum,
          preserve := a.preserve }
      let art : Artifact :=
        { type := "file", name := a.path, sha256 := sum, size := size }
      .ok
        ({ steps := acc.1.steps ++
             [.stepInstallFile target sum size (parseMode a.mode)],
           targets := acc.1.targets ++ [target],
           initFiles := acc.1.initFiles ++ [entry] }, acc.2 ++ [art])
  | .url a =>
    let urlStr := expandTemplate a.url ctx
    let target := goJoin root (expandTemplate a.target ctx)
    match env.fetch urlStr with
    | .error e => .error e
    | .ok fr =>
      let entry : ReceiptFile :=
        { path := expandTemplate a.target ctx,
          type := "file",
          mode := parseMode a.mode,
          sha256 := fr.sum,
          preserve := a.preserve }
      let art : Artifact :=
        { type := "url", url := urlStr, sha256 := fr.sum, size := fr.size }
      .ok
        ({ steps := acc.1.steps ++
             [.stepInstallFile target fr.sum fr.size (parseMode a.mode)],
           targets := acc.1.targets ++ [target],
           initFiles := acc.1.initFiles ++ [entry] }, acc.2 ++ [art])
  | .asset a =>
    match SelectAsset env release a with
    | .error e => .error e
    | .ok asset =>
      let target := goJoin root (expandTemplate a.target ctx)
      match env.fetch asset.url with
      | .error e => .error e
      | .ok fr =>
        let entry : ReceiptFile :=
          { path := expandTemplate a.target ctx,
            type := "file",
            mode := parseMode a.mode,
            sha256 := fr.sum,
            preserve := a.preserve }
        let art : Artifact :=
          { type := "asset", name := asset.name, url := asset.url,
            sha256 := fr.sum, size := fr.size }
        .ok
          ({ steps := acc.1.steps ++
               [.stepInstallFile target fr.sum fr.size (parseMode a.mode)],
             targets := acc.1.targets ++ [target],
             initFiles := acc.1.initFiles ++ [entry] }, acc.2 ++ [art])
  | .extract a =>
    match buildExtractPlan env root mf a ctx with
    | .error e => .error e
    | .ok (sub, _, _) =>
      .ok
        ({ steps := acc.1.steps ++ sub.steps,
           targets := acc.1.targets ++ sub.targets,
           initFiles := acc.1.initFiles }, acc.2)

/-- The action loop of Go `Manager.buildPlan`. -/
def buildPlanGo (env : Env) (root : String) (mf : Manifest)
    (release : Release) (ctx : TemplateContext) :
    List Action → Plan × List Artifact → Except String (Plan × List Artifact)
  | [], acc => .ok acc
  | act :: rest, acc =>
    match buildPlanAction env root mf release ctx acc act with
    | .error e => .error e
    | .ok acc2 => buildPlanGo env root mf release ctx rest acc2

/-- Go `Manager.buildPlan`. -/
def buildPlan (env : Env) (root : String) (mf : Manifest) (release : Release)
    (ctx : TemplateContext) : Except String (Plan × List Artifact) :=
  buildPlanGo env root mf release ctx mf.install ({}, [])

/-! ## Remove, reconciliation, and Install. -/

structure InstallOptions where
  version : String := ""
  force : Bool := false
  dryRun : Bool := false
  deriving Repr, DecidableEq

structure RemoveOptions where
  purge : Bool := false
  deriving Repr, DecidableEq

/-- The whole mutable world a command touches: the disk under the root,
    the state directory, and the wall clock `RecordInstall` reads. -/
structure Sys where
  disk : Disk := []
  store : Store := {}
  now : String := ""
  deriving Repr, DecidableEq

/-- The per-entry loop of Go `Manager.Remove`: skip entries with
    `preserve` set unless purging, otherwise `os.Remove(root/path)` for the
    three known types with the error discarded. -/
def removeEntries (root : String) (purge : Bool) :
    List ReceiptFile → Disk → Disk
  | [], d => d
  | f :: fs, d =>
    let d2 :=
      if f.preserve && !purge then d
      else if f.type = "file" ∨ f.type = "symlink" ∨ f.type = "dir" then
        match osRemove d (goJoin root f.path) with
        | .ok dd => dd
        | .error _ => d
      else d
    removeEntries root purge fs d2

/-- Go `Manager.Remove`: load the receipt (a missing one is an error),
    delete its entries per the preserve/purge rule, delete the receipt file
    and drop the package from the installed index. -/
def Remove (root : String) (sys : Sys) (name : String) (opts : RemoveOptions) :
    Except String Unit × Sys :=
  match lookupA sys.store.receipts name with
  | none =>
    (.error ("open receipts/" ++ name ++ ".json: no such file or directory"),
     sys)
  | some receipt =>
    let disk := removeEntries root opts.purge receipt.files sys.disk
    let store :=
      { sys.store with
        receipts := sys.store.receipts.filter (fun e => e.1 ≠ name) }
    let store := RecordRemove store name
    (.ok (), { sys with disk := disk, store := store })

/-- Go `removeObsoleteFiles`: for every path of the old receipt missing
    from the new one and not preserved, remove it from disk ignoring
    errors. -/
def removeObsoleteFiles (root : String) (oldR newR : Receipt) (d : Disk) :
    Disk :=
  oldR.files.foldl
    (fun d old =>
      if newR.files.any (fun f => f.path = old.path) then d
      else if old.preserve then d
      else if old.type = "file" ∨ old.type = "symlink" ∨ old.type = "dir" then
        match osRemove d (goJoin root old.path) with
        | .ok dd => dd
        | .error _ => d
      else d) d

/-- The template context `Install` constructs after resolution. -/
def mkCtx (env : Env) (mf : Manifest) (resolved : String) : TemplateContext :=
  { version := resolved,
    tag := resolved,
    os := env.goos,
    arch := env.goarch,
    repo := mf.source.repo,
    name := mf.name }

/-- The already-installed early exit at the top of Go `Manager.Install`:
    when the package is recorded and `force` is unset, resolve; a resolver
    error aborts (`some (.error e)`); a non-empty resolved tag equal to the
    recorded version with a loadable receipt returns that receipt
    (`some (.ok receipt)`); anything else falls through (`none`). -/
def installEarly (env : Env) (sys : Sys) (mf : Manifest)
    (opts : InstallOptions) : Option (Except String Receipt) :=
  match lookupA sys.store.installed mf.name, opts.force with
  | some entry, false =>
    match resolveVersion env mf opts.version with
    | .error e => some (.error e)
    | .ok (resolved, _) =>
      if resolved ≠ "" ∧ resolved = entry.version then
        match lookupA sys.store.receipts mf.name with
        | some receipt => some (.ok receipt)
        | none => none
      else none
  | _, _ => none

/-- Go `Manager.Install`.  The lock, `EnsureDirs` and the work directory
    touch only ghpm's own state area and are outside the modelled disk;
    post-install hooks are fire-and-forget `/bin/sh` invocations whose
    results the code discards. -/
def Install (env : Env) (root : String) (sys : Sys) (name : String)
    (opts : InstallOptions) : Except String Receipt × Sys :=
  match env.loadManifest name with
  | .error e => (.error e, sys)
  | .ok mf =>
    match installEarly env sys mf opts with
    | some r => (r, sys)
    | none =>
      let previousReceipt := lookupA sys.store.receipts mf.name
      let ownership := buildOwnership sys.store
      match resolveVersion env mf opts.version with
      | .error e => (.error e, sys)
      | .ok (resolved, release) =>
        let platform : Platform := { os := env.goos, arch := env.goarch }
        let ctx := mkCtx env mf resolved
        match buildPlan env root mf release ctx with
        | .error e => (.error e, sys)
        | .ok (plan, artifacts) =>
          let conflicts :=
            checkConflicts root sys.disk ownership name opts.force plan.targets
          if conflicts ≠ [] then
            (.error ("install conflicts: " ++ joinComma conflicts), sys)
          else if opts.dryRun then (.ok {}, sys)
          else
            match runSteps env root plan.steps
                { disk := sys.disk, files := plan.initFiles } with
            | (some e, st) => (.error e, { sys with disk := st.disk })
            | (none, st) =>
              let receipt : Receipt :=
                { schema := 1,
                  name := mf.name,
                  source := { kind := mf.source.kind, repo := mf.source.repo,
                              tag := resolved, releaseId := release.id },
                  platform := platform,
                  artifacts := artifacts,
                  files := st.files }
              let store := SaveReceipt sys.store mf.name receipt
              let store := RecordInstall store mf.name resolved sys.now
              let disk :=
                match previousReceipt with
                | some prev => removeObsoleteFiles root prev receipt st.disk
                | none => st.disk
              (.ok receipt, { sys with disk := disk, store := store })

/-- The expanded path a non-extract action stores in its plan-time receipt
    entry begins with a slash; extract actions store nothing at plan time
    (their entries are normalised by `recordExtractedList` while running).
    This is the per-action premise under which the receipt-path claim is
    provable. -/
def actionAbs (ctx : TemplateContext) : Action → Bool
  | .mkdir a => strStartsWith (expandTemplate a.path ctx) "/"
  | .symlink a => strStartsWith (expandTemplate a.target ctx) "/"
  | .file a => strStartsWith (expandTemplate a.target ctx) "/"
  | .url a => strStartsWith (expandTemplate a.target ctx) "/"
  | .asset a => strStartsWith (expandTemplate a.target ctx) "/"
  | .extract _ => true

/-! ## Concrete fixtures used by the claim theorems and witnesses. -/

/-- C1 fixture: package `q` plans a target that package `p` owns. -/
def mf1 : Manifest :=
  { name := "q", install := [.mkdir { path := "/usr/local/bin/foo" }] }

def env1 : Env := { loadManifest := fun _ => .ok mf1 }

def sys1 : Sys :=
  { store :=
    { installed := [("p", { version := "v1", receipt := "receipts/p.json" })],
      receipts := [("p",
        { name := "p",
          files := [{ path := "/usr/local/bin/foo", type := "file" }] })] } }

/-- C6 fixture: an http-source manifest with a single mkdir action. -/
def mf6 : Manifest :=
  { name := "p6", source := { kind := "http" },
    install := [.mkdir { path := "/h" }] }

def env6 : Env := { loadManifest := fun _ => .ok mf6 }

/-- C2 fixture: a mkdir step that fails because a path component exists as
    a regular file; the package is already recorded at version v0. -/
def mf2 : Manifest :=
  { name := "pkg2", install := [.mkdir { path := "/data/sub" }] }

def env2 : Env := { loadManifest := fun _ => .ok mf2 }

def sys2 : Sys :=
  { disk := [("/data", .file 420 "zz" 1)],
    store := { installed := [("pkg2", { version := "v0" })] } }

/-- C3 fixture: package recorded at v1 and the resolver returns v1 again,
    but the receipt file is missing, so the early exit falls through. -/
def mf3 : Manifest :=
  { name := "p3", source := { kind := "github", repo := "o/r" },
    install := [.mkdir { path := "/newdir" }] }

def env3 : Env :=
  { loadManifest := fun _ => .ok mf3,
    githubList := fun _ => .ok [{ tagName := "v1", id := 7 }] }

def sys3 : Sys :=
  { store := { installed :=
      [("p3", { version := "v1", receipt := "receipts/p3.json" })] } }

/-- C4 fixture: a receipt with a preserved config entry, a plain binary
    entry, and an entry whose path is already absent from the disk. -/
def rcpt4 : Receipt :=
  { schema := 1, name := "p4",
    files :=
      [{ path := "/etc/conf", type := "file", preserve := true },
       { path := "/bin/tool", type := "file" },
       { path := "/gone", type := "file" }] }

def sys4 : Sys :=
  { disk := [("/etc/conf", .file 420 "c" 1), ("/bin/tool", .file 493 "t" 2)],
    store := { installed := [("p4", { version := "v1" })],
               receipts := [("p4", rcpt4)] } }

/-- C9 fixture: a receipt whose only entry is a directory that is not
    empty on disk (it still contains a file the receipt does not list). -/
def rcpt9 : Receipt :=
  { schema := 1, name := "p9",
    files := [{ path := "/data", type := "dir" }] }

def sys9 : Sys :=
  { disk := [("/data", .dir), ("/data/keep", .file 420 "k" 1)],
    store := { installed := [("p9", { version := "v1" })],
               receipts := [("p9", rcpt9)] } }

/-- C5 counterexample fixture: a mkdir action with a relative path under a
    non-slash root. -/
def mf5 : Manifest :=
  { name := "p5", install := [.mkdir { path := "usr/test" }] }

def env5 : Env := { loadManifest := fun _ => .ok mf5 }

/-- C5 witness fixture: a github-source manifest exercising every action
    type (mkdir, symlink, url, asset, file, extract) under root `/base`,
    with the network, archive and package-directory collaborators pinned to
    concrete values. -/
def extract5w : ExtractAction :=
  { extractFrom := { type := "asset", name := "a.tar.gz" },
    format := "tar.gz", targetDir := "/opt" }

def mf5w : Manifest :=
  { name := "tool", source := { kind := "github", repo := "o/r" },
    path := "/var/lib/ghpm/packages/tool/package.yaml",
    install :=
      [.mkdir { path := "/m" },
       .symlink { target := "/s", toDest := "x" },
       .url { url := "u2", target := "/u", mode := "0644" },
       .asset { name := "a.tar.gz", target := "/a", mode := "0755" },
       .file { path := "files/f", target := "/f" },
       .extract extract5w] }

def env5w : Env :=
  { loadManifest := fun _ => .ok mf5w,
    githubList := fun _ =>
      .ok [{ tagName := "v1", id := 7,
             assets := [{ name := "a.tar.gz", url := "u1", size := 9 }] }],
    fetch := fun u =>
      if u = "u1" then
        .ok { localPath := "/cache/x", sum := "s1", size := 1,
              hintName := "a.tar.gz" }
      else if u = "u2" then
        .ok { localPath := "/cache/y", sum := "s4", size := 4,
              hintName := "y" }
      else .error "404",
    archive := fun p =>
      if p = "/cache/x" then
        .ok [{ name := "bin/tool", typeflag := .reg, mode := 493,
               sha := "s2", size := 2 }]
      else .error "bad archive",
    hashFileWS := fun _ => .ok ("s3", 3) }

def rel5w : Release :=
  { tag := "v1", id := 7,
    assets := [{ name := "a.tar.gz", url := "u1", size := 9 }] }

def plan5w : Plan :=
  { steps :=
      [.stepMkdir "/base/m",
       .stepSymlink "/base/s" "x",
       .stepInstallFile "/base/u" "s4" 4 420,
       .stepInstallFile "/base/a" "s1" 1 493,
       .stepInstallFile "/base/f" "s3" 3 0,
       .stepExtract "/cache/x" "a.tar.gz" "/base/opt" extract5w,
       .stepRecord "/base/opt" ["bin/tool"]],
    targets := ["/base/m", "/base/s", "/base/u", "/base/a", "/base/f",
                "/base/opt/bin/tool"],
    initFiles :=
      [{ path := "/m", type := "dir" },
       { path := "/s", type := "symlink", toDest := "x" },
       { path := "/u", type := "file", mode := 420, sha256 := "s4" },
       { path := "/a", type := "file", mode := 493, sha256 := "s1" },
       { path := "/f", type := "file", sha256 := "s3" }] }

def arts5w : List Artifact :=
  [{ type := "url", url := "u2", sha256 := "s4", size := 4 },
   { type := "asset", name := "a.tar.gz", url := "u1", sha256 := "s1",
     size := 1 },
   { type := "file", name := "files/f", sha256 := "s3", size := 3 }]

/-- C10 fixture: the CLI name `dir10` loads a manifest whose `name` field
    is `pkg10`; `pkg10` is installed and owns the planned target. -/
def mf10 : Manifest :=
  { name := "pkg10", install := [.mkdir { path := "/bin/tool10" }] }

def env10 : Env :=
  { loadManifest := fun n =>
      if n = "dir10" then .ok mf10 else .error "no such package" }

def sys10 : Sys :=
  { store :=
    { installed :=
        [("pkg10", { version := "v0", receipt := "receipts/pkg10.json" })],
      receipts := [("pkg10",
        { name := "pkg10",
          files := [{ path := "/bin/tool10", type := "dir" }] })] } }

/-- C3 witness fixture: a sourceless package pinned to v1 whose receipt is
    present, so the early exit returns it unchanged. -/
def mf3w : Manifest :=
  { name := "p3w", install := [.mkdir { path := "/w" }] }

def env3w : Env := { loadManifest := fun _ => .ok mf3w }

def rcpt3w : Receipt :=
  { schema := 1, name := "p3w",
    files := [{ path := "/w", type := "dir" }] }

def sys3w : Sys :=
  { store := { installed := [("p3w", { version := "v1" })],
               receipts := [("p3w", rcpt3w)] } }

/-! ## Helper lemmas shared by the claim theorems. -/

theorem slash_append_ne_empty (x : String) : "/" ++ x ≠ "" := by
  intro h
  have := congrArg String.length h
  simp [String.length_append] at this
  exact absurd this.1 (by decide)

theorem goClean_ne_empty (p : String) : goClean p ≠ "" := by
  unfold goClean
  split
  · simp
  · dsimp only
    split
    · split
      · simp
      · exact slash_append_ne_empty _
    · split
      · simp
      · assumption

theorem cmp64_spec (a b : Nat) :
    (cmp64 a b = 1 ∧ toInt64 a > toInt64 b) ∨
    (cmp64 a b = -1 ∧ toInt64 a < toInt64 b) ∨
    (cmp64 a b = 0 ∧ toInt64 a = toInt64 b) := by
  unfold cmp64
  split_ifs with h1 h2
  · exact Or.inl ⟨rfl, h1⟩
  · exact Or.inr (Or.inl ⟨rfl, h2⟩)
  · exact Or.inr (Or.inr ⟨rfl, by omega⟩)

/-- C7: when both release tags parse as semantic versions (optional leading
    `v`, at least MAJOR.MINOR, numeric prefix of each dot-separated part,
    missing PATCH as 0), `compareReleases` orders them by major, then
    minor, then patch numerically with higher winning, ignoring the
    published timestamps; in particular `v1.10.0` orders above `v1.9.0`
    (numerically, not lexicographically) and `v2.0` compares equal to
    `v2.0.0`. -/
theorem c7_semver_ordering :
    (∀ (a b : String) (ta tb : Int) (x y : Nat × Nat × Nat),
      parseSemver a = some x → parseSemver b = some y →
      ((compareReleases a b ta tb = 1 ↔
          (toInt64 y.1 < toInt64 x.1 ∨
            (toInt64 x.1 = toInt64 y.1 ∧
              (toInt64 y.2.1 < toInt64 x.2.1 ∨
                (toInt64 x.2.1 = toInt64 y.2.1 ∧
                  toInt64 y.2.2 < toInt64 x.2.2))))) ∧
        (compareReleases a b ta tb = -1 ↔
          (toInt64 x.1 < toInt64 y.1 ∨
            (toInt64 x.1 = toInt64 y.1 ∧
              (toInt64 x.2.1 < toInt64 y.2.1 ∨
                (toInt64 x.2.1 = toInt64 y.2.1 ∧
                  toInt64 x.2.2 < toInt64 y.2.2))))) ∧
        (compareReleases a b ta tb = 0 ↔
          (toInt64 x.1 = toInt64 y.1 ∧ toInt64 x.2.1 = toInt64 y.2.1 ∧
            toInt64 x.2.2 = toInt64 y.2.2)))) ∧
    compareReleases "v1.10.0" "v1.9.0" 0 1 = 1 ∧
    compareReleases "v2.0" "v2.0.0" 5 0 = 0 := by
  refine ⟨?_, by decide, by decide⟩
  intro a b ta tb x y hxa hyb
  have hrel : compareReleases a b ta tb =
      (if cmp64 x.1 y.1 ≠ 0 then cmp64 x.1 y.1
       else if cmp64 x.2.1 y.2.1 ≠ 0 then cmp64 x.2.1 y.2.1
       else cmp64 x.2.2 y.2.2) := by
    simp [compareReleases, compareSemver, hxa, hyb]
  rcases cmp64_spec x.1 y.1 with ⟨e1, f1⟩ | ⟨e1, f1⟩ | ⟨e1, f1⟩ <;>
    rcases cmp64_spec x.2.1 y.2.1 with ⟨e2, f2⟩ | ⟨e2, f2⟩ | ⟨e2, f2⟩ <;>
    rcases cmp64_spec x.2.2 y.2.2 with ⟨e3, f3⟩ | ⟨e3, f3⟩ | ⟨e3, f3⟩ <;>
    rw [hrel, e1, e2, e3] <;>
    refine ⟨?_, ?_, ?_⟩ <;> constructor <;> intro hcase <;> omega

theorem goJoinList_ne_empty_of_all_ne (l : List String) (hne : l ≠ [])
    (hno : ∀ x ∈ l, x ≠ "") : goJoinList l ≠ "" := by
  unfold goJoinList
  have hf : l.filter (fun e => e ≠ "") = l := by
    apply List.filter_eq_self.mpr
    intro a ha
    simpa using hno a ha
  rw [hf]
  simp only [hne, if_false]
  exact goClean_ne_empty _

theorem listTar_cons_empty (act : ExtractAction) (e : TarEntry)
    (rest : List TarEntry)
    (h : stripComponents e.name act.stripComponents = "") :
    listTarFilesOn act (e :: rest) = listTarFilesOn act rest := by
  simp only [listTarFilesOn]
  rw [if_pos h]

theorem listTar_cons_notreg (act : ExtractAction) (e : TarEntry)
    (rest : List TarEntry)
    (h1 : stripComponents e.name act.stripComponents ≠ "")
    (h2 : ¬(e.typeflag = TarType.reg ∨ e.typeflag = TarType.regA)) :
    listTarFilesOn act (e :: rest) = listTarFilesOn act rest := by
  simp only [listTarFilesOn]
  rw [if_neg h1, if_neg h2]

theorem listTar_cons_included (act : ExtractAction) (e : TarEntry)
    (rest : List TarEntry)
    (h1 : stripComponents e.name act.stripComponents ≠ "")
    (h2 : e.typeflag = TarType.reg ∨ e.typeflag = TarType.regA)
    (h3 : shouldInclude (stripComponents e.name act.stripComponents)
      act.pick act.omitl = true) :
    listTarFilesOn act (e :: rest) =
      (stripComponents e.name act.stripComponents ::
        (listTarFilesOn act rest).1, (listTarFilesOn act rest).2) := by
  simp only [listTarFilesOn]
  rw [if_neg h1, if_pos h2, if_pos h3]

theorem listTar_cons_skipped (act : ExtractAction) (e : TarEntry)
    (rest : List TarEntry)
    (h1 : stripComponents e.name act.stripComponents ≠ "")
    (h2 : e.typeflag = TarType.reg ∨ e.typeflag = TarType.regA)
    (h3 : ¬shouldInclude (stripComponents e.name act.stripComponents)
      act.pick act.omitl = true) :
    listTarFilesOn act (e :: rest) =
      ((listTarFilesOn act rest).1,
        stripComponents e.name act.stripComponents ::
          (listTarFilesOn act rest).2) := by
  simp only [listTarFilesOn]
  rw [if_neg h1, if_pos h2, if_neg h3]

/-- C8: listing applies `stripComponents` by dropping that many leading
    path components, dropping entirely entries whose path has at most that
    many components; a surviving regular file is included iff some pick
    glob matches when `pick` is non-empty, else iff no omit glob matches
    when `omit` is non-empty, else always — so `pick` takes precedence over
    `omit` when both are present. -/
theorem c8_strip_pick_omit :
    (∀ (entries : List TarEntry) (act : ExtractAction) (s : String),
      s ∈ (listTarFilesOn act entries).1 ↔
        ∃ e ∈ entries,
          (e.typeflag = TarType.reg ∨ e.typeflag = TarType.regA) ∧
          stripComponents e.name act.stripComponents = s ∧ s ≠ "" ∧
          shouldInclude s act.pick act.omitl = true) ∧
    (∀ (p : String) (c : Int), 0 < c →
      (∀ x ∈ splitSlash (goClean p), x ≠ "") →
      (stripComponents p c = "" ↔ (splitSlash (goClean p)).length ≤ c.toNat)) ∧
    (∀ (p : String) (c : Int), 0 < c →
      c.toNat < (splitSlash (goClean p)).length →
      stripComponents p c = goJoinList ((splitSlash (goClean p)).drop c.toNat)) ∧
    (∀ (s : String) (pickl omitl : List String), pickl ≠ [] →
      (shouldInclude s pickl omitl = true ↔
        ∃ g ∈ pickl, goMatch g s = true)) ∧
    (∀ (s : String) (omitl : List String),
      shouldInclude s [] omitl = true ↔ ∀ g ∈ omitl, goMatch g s = false) ∧
    shouldInclude "a" ["a"] ["a"] = true ∧
    stripComponents "a/b" 2 = "" := by
  refine ⟨?_, ?_, ?_, ?_, ?_, by decide, by decide⟩
  · intro entries act s
    induction entries with
    | nil => simp [listTarFilesOn]
    | cons e rest ih =>
      by_cases h1 : stripComponents e.name act.stripComponents = ""
      · rw [listTar_cons_empty act e rest h1, ih]
        constructor
        · rintro ⟨e2, he2, hprops⟩
          exact ⟨e2, List.mem_cons_of_mem _ he2, hprops⟩
        · rintro ⟨e2, he2, hreg, hstrip, hne, hinc⟩
          rcases List.mem_cons.mp he2 with heq | he2
          · subst heq
            exact absurd h1 (by rw [hstrip]; exact hne)
          · exact ⟨e2, he2, hreg, hstrip, hne, hinc⟩
      · by_cases h2 : e.typeflag = TarType.reg ∨ e.typeflag = TarType.regA
        · by_cases h3 : shouldInclude (stripComponents e.name
              act.stripComponents) act.pick act.omitl = true
          · rw [listTar_cons_included act e rest h1 h2 h3]
            simp only [List.mem_cons]
            constructor
            · rintro (heq | hs)
              · refine ⟨e, Or.inl rfl, h2, heq.symm, ?_, ?_⟩
                · rw [← heq] at h1; exact h1
                · rw [← heq] at h3; exact h3
              · obtain ⟨e2, he2, hprops⟩ := ih.mp hs
                exact ⟨e2, Or.inr he2, hprops⟩
            · rintro ⟨e2, he2, hreg, hstrip, hne, hinc⟩
              rcases he2 with heq | he2
              · subst heq
                exact Or.inl hstrip.symm
              · exact Or.inr (ih.mpr ⟨e2, he2, hreg, hstrip, hne, hinc⟩)
          · rw [listTar_cons_skipped act e rest h1 h2 h3, ih]
            constructor
            · rintro ⟨e2, he2, hprops⟩
              exact ⟨e2, List.mem_cons_of_mem _ he2, hprops⟩
            · rintro ⟨e2, he2, hreg, hstrip, hne, hinc⟩
              rcases List.mem_cons.mp he2 with heq | he2
              · subst heq
                rw [hstrip] at h3
                exact absurd hinc h3
              · exact ⟨e2, he2, hreg, hstrip, hne, hinc⟩
        · rw [listTar_cons_notreg act e rest h1 h2, ih]
          constructor
          · rintro ⟨e2, he2, hprops⟩
            exact ⟨e2, List.mem_cons_of_mem _ he2, hprops⟩
          · rintro ⟨e2, he2, hreg, hstrip, hne, hinc⟩
            rcases List.mem_cons.mp he2 with heq | he2
            · subst heq
              exact absurd hreg h2
            · exact ⟨e2, he2, hreg, hstrip, hne, hinc⟩
  · intro p c hc hno
    unfold stripComponents
    rw [if_neg (by omega)]
    constructor
    · intro h
      by_contra hlen
      push_neg at hlen
      rw [if_neg (by omega)] at h
      have hdrop_ne : (splitSlash (goClean p)).drop c.toNat ≠ [] := by
        intro hd
        have := List.drop_eq_nil_iff.mp hd
        omega
      exact goJoinList_ne_empty_of_all_ne _ hdrop_ne
        (fun x hx => hno x (List.mem_of_mem_drop hx)) h
    · intro hlen
      rw [if_pos (by omega)]
  · intro p c hc hlen
    unfold stripComponents
    rw [if_neg (by omega), if_neg (by omega)]
  · intro s pickl omitl hp
    unfold shouldInclude
    rw [if_pos (by rw [gt_iff_lt, List.length_pos]; exact hp)]
    simp [List.any_eq_true]
  · intro s omitl
    unfold shouldInclude
    cases omitl with
    | nil => simp
    | cons g l =>
      rw [if_neg (by simp)]
      rw [if_pos (by simp)]
      rw [Bool.not_eq_true']
      rw [List.any_eq_false]
      constructor
      · intro h g2 hg2
        exact Bool.not_eq_true _ ▸ (by simpa using h g2 hg2)
      · intro h g2 hg2
        simp [h g2 hg2]

/-- Witness for C8: the characterizations applied at a concrete archive
    (one regular file `pkg/bin/tool`, one directory) with strip 1 and both
    pick and omit lists present. -/
theorem c8_strip_pick_omit_witness :
    ("bin/tool" ∈ (listTarFilesOn
        { stripComponents := 1, pick := ["bin/*"], omitl := ["bin/*"] }
        [{ name := "pkg/bin/tool", typeflag := .reg },
         { name := "pkg/bin", typeflag := .dir }]).1 ↔
      ∃ e ∈ [({ name := "pkg/bin/tool", typeflag := .reg } : TarEntry),
             { name := "pkg/bin", typeflag := .dir }],
        (e.typeflag = TarType.reg ∨ e.typeflag = TarType.regA) ∧
        stripComponents e.name 1 = "bin/tool" ∧ ("bin/tool" : String) ≠ "" ∧
        shouldInclude "bin/tool" ["bin/*"] ["bin/*"] = true) ∧
    (stripComponents "a/b" 2 = "" ↔ (splitSlash (goClean "a/b")).length ≤ 2) ∧
    (shouldInclude "doc/ref.md" ["doc/*.md"] [] = true ↔
      ∃ g ∈ ["doc/*.md"], goMatch g "doc/ref.md" = true) := by
  refine ⟨?_, ?_, ?_⟩
  · exact c8_strip_pick_omit.1
      [{ name := "pkg/bin/tool", typeflag := .reg },
       { name := "pkg/bin", typeflag := .dir }]
      { stripComponents := 1, pick := ["bin/*"], omitl := ["bin/*"] }
      "bin/tool"
  · exact c8_strip_pick_omit.2.1 "a/b" 2 (by decide) (by decide)
  · exact c8_strip_pick_omit.2.2.2.1 "doc/ref.md" ["doc/*.md"] []
      (by simp)

/-- C6 (counterexample): the claim says every operation that resolves a
    version for an `http` source without an explicit version fails; but
    `Manager.resolveVersion` short-circuits that case to an empty tag with
    no error, so this Install of an http-source manifest with no version
    succeeds (and mutates the filesystem). -/
theorem c6_counterexample :
    mf6.source.kind = "http" ∧
    resolveVersion env6 mf6 "" = .ok ("", emptyRelease) ∧
    ((Install env6 "/" {} "p6" { version := "" }).1).toOption.isSome = true := by
  decide

/-- C6 (amended): the http driver itself requires an explicit version —
    `httpResolver.ResolveRelease` errors on an empty version and otherwise
    returns a release with only the tag populated — but
    `Manager.resolveVersion` short-circuits an http source with an empty
    version to an empty resolved tag without error, so operations proceed
    with an empty version rather than failing. -/
theorem c6_http_requires_version (env : Env) (repo v : String) (mf : Manifest)
    (hv : v ≠ "") (hk : mf.source.kind = "http") :
    resolveWith env "http" repo v =
      .ok { tag := v, id := 0, published := 0, assets := [] } ∧
    resolveWith env "http" repo "" =
      .error "http source requires explicit --version" ∧
    resolveVersion env mf "" = .ok ("", emptyRelease) := by
  refine ⟨?_, rfl, ?_⟩
  · simp [resolveWith, httpResolveRelease, hv]
  · simp [resolveVersion, hk]

/-- Witness for C6 at a concrete repository, version and manifest. -/
theorem c6_http_requires_version_witness :
    ("v1" : String) ≠ "" ∧ mf6.source.kind = "http" ∧
    resolveWith {} "http" "o/r" "v1" =
      .ok { tag := "v1", id := 0, published := 0, assets := [] } ∧
    resolveWith {} "http" "o/r" "" =
      .error "http source requires explicit --version" ∧
    resolveVersion {} mf6 "" = .ok ("", emptyRelease) := by
  have h := c6_http_requires_version {} "o/r" "v1" mf6 (by decide) (by decide)
  exact ⟨by decide, by decide, h.1, h.2.1, h.2.2⟩

theorem mem_checkConflicts (root : String) (disk : Disk)
    (own : List (String × String)) (pkg : String) (force : Bool)
    (targets : List String) (r : String) :
    r ∈ checkConflicts root disk own pkg force targets ↔
      ∃ t ∈ targets, normalizePathForReceipt root t = r ∧
        ((∃ o, lookupA own (normalizePathForReceipt root t) = some o ∧
            o ≠ pkg) ∨
         (osStat disk t = true ∧ force = false ∧
           ¬okOwned own (normalizePathForReceipt root t) pkg = true)) := by
  induction targets with
  | nil => simp [checkConflicts]
  | cons t rest ih =>
    simp only [checkConflicts]
    have hsplit :
        (match lookupA own (normalizePathForReceipt root t) with
          | some owner => owner != pkg
          | none => false) = true ↔
        (∃ o, lookupA own (normalizePathForReceipt root t) = some o ∧
          o ≠ pkg) := by
      cases h : lookupA own (normalizePathForReceipt root t) with
      | none => simp
      | some o =>
        simp only [bne_iff_ne]
        constructor
        · intro hne
          exact ⟨o, rfl, hne⟩
        · rintro ⟨o2, ho2, hne⟩
          exact (Option.some.injEq _ _ ▸ ho2 : o = o2) ▸ hne
    have hsplit2 :
        (osStat disk t && !force && !okOwned own
          (normalizePathForReceipt root t) pkg) = true ↔
        (osStat disk t = true ∧ force = false ∧
          ¬okOwned own (normalizePathForReceipt root t) pkg = true) := by
      simp only [Bool.and_eq_true, Bool.not_eq_true']
      constructor
      · rintro ⟨⟨hs, hf⟩, ho⟩
        exact ⟨hs, hf, by simp [ho]⟩
      · rintro ⟨hs, hf, ho⟩
        refine ⟨⟨hs, hf⟩, ?_⟩
        revert ho
        cases okOwned own (normalizePathForReceipt root t) pkg <;> simp
    by_cases h1 : (match lookupA own (normalizePathForReceipt root t) with
        | some owner => owner != pkg
        | none => false) = true
    · rw [if_pos h1]
      simp only [List.mem_cons]
      constructor
      · rintro (rfl | hr)
        · exact ⟨t, Or.inl rfl, rfl, Or.inl (hsplit.mp h1)⟩
        · obtain ⟨t2, ht2, hprops⟩ := ih.mp hr
          exact ⟨t2, Or.inr ht2, hprops⟩
      · rintro ⟨t2, ht2, hrel, hcond⟩
        rcases ht2 with rfl | ht2
        · exact Or.inl hrel.symm
        · exact Or.inr (ih.mpr ⟨t2, ht2, hrel, hcond⟩)
    · rw [if_neg h1]
      by_cases h2 : (osStat disk t && !force && !okOwned own
          (normalizePathForReceipt root t) pkg) = true
      · rw [if_pos h2]
        simp only [List.mem_cons]
        constructor
        · rintro (rfl | hr)
          · exact ⟨t, Or.inl rfl, rfl, Or.inr (hsplit2.mp h2)⟩
          · obtain ⟨t2, ht2, hprops⟩ := ih.mp hr
            exact ⟨t2, Or.inr ht2, hprops⟩
        · rintro ⟨t2, ht2, hrel, hcond⟩
          rcases ht2 with rfl | ht2
          · exact Or.inl hrel.symm
          · exact Or.inr (ih.mpr ⟨t2, ht2, hrel, hcond⟩)
      · rw [if_neg h2]
        rw [ih]
        constructor
        · rintro ⟨t2, ht2, hprops⟩
          exact ⟨t2, List.mem_cons_of_mem _ ht2, hprops⟩
        · rintro ⟨t2, ht2, hrel, hcond⟩
          rcases List.mem_cons.mp ht2 with rfl | ht2
          · rcases hcond with hc | hc
            · exact absurd (hsplit.mpr hc) h1
            · exact absurd (hsplit2.mpr hc) h2
          · exact ⟨t2, ht2, hrel, hcond⟩

/-- C1 (counterexample): with `--force` set and the planned target absent
    from the disk, Install still raises InstallConflict, because the
    ownership branch of `checkConflicts` ignores both the on-disk state and
    the force flag; the claim permits a conflict only when the target
    exists on disk and `--force` is not set. -/
theorem c1_counterexample :
    osStat sys1.disk "/usr/local/bin/foo" = false ∧
    (Install env1 "/" sys1 "q" { version := "v1", force := true }).1 =
      .error "install conflicts: /usr/local/bin/foo" ∧
    (Install env1 "/" sys1 "q" { version := "v1", force := true }).2 =
      sys1 := by
  decide

theorem lookupA_filter {α : Type} (l : List (String × α)) (q p : String) :
    lookupA (l.filter (fun e => e.1 ≠ q)) p =
      if p = q then none else lookupA l p := by
  induction l with
  | nil => simp [lookupA]
  | cons e rest ih =>
    by_cases hq : e.1 = q
    · rw [List.filter_cons_of_neg (by simp [hq])]
      rw [ih]
      by_cases hp : p = q
      · rw [if_pos hp, if_pos hp]
      · rw [if_neg hp, if_neg hp]
        have hep : ¬e.1 = p := by rw [hq]; exact fun hc => hp hc.symm
        simp only [lookupA]
        rw [if_neg hep]
    · rw [List.filter_cons_of_pos (by simp [hq])]
      simp only [lookupA]
      by_cases hep : e.1 = p
      · have hpq : ¬p = q := fun hc => hq (hep.trans hc)
        rw [if_neg hpq, if_pos hep, if_pos hep]
      · rw [if_neg hep, if_neg hep, ih]

theorem diskGet_diskDel (d : Disk) (q p : String) :
    diskGet (diskDel d q) p = if p = q then none else diskGet d p :=
  lookupA_filter d q p

theorem diskHasChild_diskDel_false (d : Disk) (q p : String)
    (h : diskHasChild d p = false) :
    diskHasChild (diskDel d q) p = false := by
  unfold diskHasChild at h
  unfold diskHasChild diskDel
  rw [List.any_eq_false] at h ⊢
  intro e he
  exact h e (List.mem_of_mem_filter he)

/-- The disk after one Remove per-entry step: unchanged, or the entry's
    joined path deleted. -/
theorem removeEntries_step_cases (root : String) (purge : Bool)
    (f : ReceiptFile) (d : Disk) :
    (if f.preserve && !purge then d
     else if f.type = "file" ∨ f.type = "symlink" ∨ f.type = "dir" then
       match osRemove d (goJoin root f.path) with
       | .ok dd => dd
       | .error _ => d
     else d) = d ∨
    (if f.preserve && !purge then d
     else if f.type = "file" ∨ f.type = "symlink" ∨ f.type = "dir" then
       match osRemove d (goJoin root f.path) with
       | .ok dd => dd
       | .error _ => d
     else d) = diskDel d (goJoin root f.path) := by
  by_cases h1 : (f.preserve && !purge) = true
  · rw [if_pos h1]; exact Or.inl rfl
  · rw [if_neg h1]
    by_cases h2 : f.type = "file" ∨ f.type = "symlink" ∨ f.type = "dir"
    · rw [if_pos h2]
      unfold osRemove
      cases diskGet d (goJoin root f.path) with
      | none => exact Or.inl rfl
      | some n =>
        by_cases h3 : diskHasChild d (goJoin root f.path) = true
        · simp only [h3, if_pos rfl]
          exact Or.inl rfl
        · rw [show diskHasChild d (goJoin root f.path) = false from by
            revert h3; cases diskHasChild d (goJoin root f.path) <;> simp]
          exact Or.inr rfl
    · rw [if_neg h2]; exact Or.inl rfl

theorem removeEntries_diskGet (root : String) (purge : Bool)
    (fs : List ReceiptFile) (d : Disk) (p : String) :
    diskGet (removeEntries root purge fs d) p = none ∨
    diskGet (removeEntries root purge fs d) p = diskGet d p := by
  induction fs generalizing d with
  | nil => exact Or.inr rfl
  | cons f rest ih =>
    simp only [removeEntries]
    rcases removeEntries_step_cases root purge f d with hstep | hstep <;>
      rw [hstep]
    · exact ih d
    · rcases ih (diskDel d (goJoin root f.path)) with h | h
      · exact Or.inl h
      · rw [h, diskGet_diskDel]
        by_cases hp : p = goJoin root f.path
        · rw [if_pos hp]; exact Or.inl rfl
        · rw [if_neg hp]; exact Or.inr rfl

theorem removeEntries_absent (root : String) (purge : Bool)
    (fs : List ReceiptFile) (d : Disk) (p : String)
    (h : diskGet d p = none) :
    diskGet (removeEntries root purge fs d) p = none := by
  rcases removeEntries_diskGet root purge fs d p with h2 | h2
  · exact h2
  · rw [h2, h]

theorem removeEntries_hasChild_false (root : String) (purge : Bool)
    (fs : List ReceiptFile) (d : Disk) (p : String)
    (h : diskHasChild d p = false) :
    diskHasChild (removeEntries root purge fs d) p = false := by
  induction fs generalizing d with
  | nil => exact h
  | cons f rest ih =>
    simp only [removeEntries]
    rcases removeEntries_step_cases root purge f d with hstep | hstep <;>
      rw [hstep]
    · exact ih d h
    · exact ih _ (diskHasChild_diskDel_false d _ p h)

theorem removeEntries_skipped (root : String) (purge : Bool)
    (fs : List ReceiptFile) (d : Disk) (p : String)
    (h : ∀ f ∈ fs, goJoin root f.path = p →
      (f.preserve = true ∧ purge = false)) :
    diskGet (removeEntries root purge fs d) p = diskGet d p := by
  induction fs generalizing d with
  | nil => rfl
  | cons f rest ih =>
    simp only [removeEntries]
    by_cases hp : goJoin root f.path = p
    · obtain ⟨hpres, hpurge⟩ := h f (List.mem_cons_self _ _) hp
      rw [if_pos (by rw [hpres, hpurge]; rfl)]
      exact ih d (fun g hg => h g (List.mem_cons_of_mem _ hg))
    · rcases removeEntries_step_cases root purge f d with hstep | hstep <;>
        rw [hstep]
      · exact ih d (fun g hg => h g (List.mem_cons_of_mem _ hg))
      · rw [ih _ (fun g hg => h g (List.mem_cons_of_mem _ hg))]
        rw [diskGet_diskDel]
        rw [if_neg (fun hc => hp hc.symm)]

theorem removeEntries_removes (root : String) (purge : Bool)
    (f : ReceiptFile)
    (hskip : ¬(f.preserve = true ∧ purge = false))
    (htype : f.type = "file" ∨ f.type = "symlink" ∨ f.type = "dir") :
    ∀ (fs : List ReceiptFile) (d : Disk), f ∈ fs →
    diskGet d (goJoin root f.path) ≠ some .dir →
    diskHasChild d (goJoin root f.path) = false →
    diskGet (removeEntries root purge fs d) (goJoin root f.path) = none := by
  intro fs
  induction fs with
  | nil => intro d hf; exact absurd hf (List.not_mem_nil f)
  | cons g rest ih =>
    intro d hf hnod hnoc
    simp only [removeEntries]
    rcases List.mem_cons.mp hf with rfl | hf2
    · have hb : ¬(f.preserve && !purge) = true := by
        revert hskip
        cases f.preserve <;> cases purge <;> simp
      rw [if_neg hb, if_pos htype]
      cases hget : diskGet d (goJoin root f.path) with
      | none =>
        have hrem : osRemove d (goJoin root f.path) =
            .error ("remove " ++ goJoin root f.path ++
              ": no such file or directory") := by
          simp only [osRemove, hget]
        rw [hrem]
        exact removeEntries_absent root purge rest d _ hget
      | some n =>
        have hrem : osRemove d (goJoin root f.path) =
            .ok (diskDel d (goJoin root f.path)) := by
          simp only [osRemove, hget]
          rw [if_neg (by simp [hnoc])]
        rw [hrem]
        exact removeEntries_absent root purge rest _ _
          (by rw [diskGet_diskDel, if_pos rfl])
    · rcases removeEntries_step_cases root purge g d with hstep | hstep <;>
        rw [hstep]
      · exact ih d hf2 hnod hnoc
      · refine ih _ hf2 ?_ (diskHasChild_diskDel_false d _ _ hnoc)
        rw [diskGet_diskDel]
        by_cases hp : goJoin root f.path = goJoin root g.path
        · rw [if_pos hp]; exact fun hc => Option.noConfusion hc
        · rw [if_neg hp]; exact hnod

theorem strStartsWith_slash_append (x : String) :
    strStartsWith ("/" ++ x) "/" = true := by
  simp [strStartsWith, String.toList, List.isPrefixOf]

theorem normalizePathForReceipt_slash (root t : String) (h : root ≠ "/") :
    strStartsWith (normalizePathForReceipt root t) "/" = true := by
  unfold normalizePathForReceipt
  rw [if_neg h]
  by_cases h1 : trimPfx t root = ""
  · rw [if_pos h1]; decide
  · rw [if_neg h1]
    by_cases h2 : strStartsWith (trimPfx t root) "/" = true
    · rw [if_pos h2]; exact h2
    · rw [if_neg h2]
      exact strStartsWith_slash_append _

theorem recordExtractedList_files (root targetDir : String)
    (hroot : root ≠ "/") :
    ∀ (files : List String) (st st2 : StepState),
    recordExtractedList root targetDir files st = .ok st2 →
    ∀ f ∈ st2.files, f ∈ st.files ∨ strStartsWith f.path "/" = true := by
  intro files
  induction files with
  | nil =>
    intro st st2 h f hf
    cases h
    exact Or.inl hf
  | cons name rest ih =>
    intro st st2 h f hf
    simp only [recordExtractedList] at h
    split at h
    · exact absurd h (by simp)
    · rcases ih st st2 h f hf with hin | hsw
      · exact Or.inl hin
      · exact Or.inr hsw
    · exact absurd h (by simp)
    · rcases ih _ st2 h f hf with hin | hsw
      · rcases List.mem_append.mp hin with hin2 | hin2
        · exact Or.inl hin2
        · rcases List.mem_singleton.mp hin2 with rfl
          exact Or.inr (normalizePathForReceipt_slash root _ hroot)
      · exact Or.inr hsw

theorem runStep_files (env : Env) (root : String) (hroot : root ≠ "/")
    (s : Step) (st st2 : StepState) (h : runStep env root st s = .ok st2) :
    ∀ f ∈ st2.files, f ∈ st.files ∨ strStartsWith f.path "/" = true := by
  cases s with
  | stepMkdir target =>
    simp only [runStep] at h
    split at h
    · exact absurd h (by simp)
    · intro f hf
      cases h
      exact Or.inl hf
  | stepSymlink target dest =>
    simp only [runStep] at h
    split at h
    · exact absurd h (by simp)
    · intro f hf
      cases h
      exact Or.inl hf
  | stepInstallFile target sum size mode =>
    simp only [runStep] at h
    split at h
    · exact absurd h (by simp)
    · intro f hf
      cases h
      exact Or.inl hf
  | stepExtract sourcePath hintName targetDir act =>
    simp only [runStep] at h
    split at h
    · exact absurd h (by simp)
    · intro f hf
      cases h
      exact Or.inl hf
  | stepRecord targetDir files =>
    exact recordExtractedList_files root targetDir hroot files st st2 h

theorem runSteps_files (env : Env) (root : String) (hroot : root ≠ "/") :
    ∀ (steps : List Step) (st st2 : StepState),
    runSteps env root steps st = (none, st2) →
    ∀ f ∈ st2.files, f ∈ st.files ∨ strStartsWith f.path "/" = true := by
  intro steps
  induction steps with
  | nil =>
    intro st st2 h f hf
    cases h
    exact Or.inl hf
  | cons s rest ih =>
    intro st st2 h f hf
    simp only [runSteps] at h
    split at h
    case h_1 st3 hstep =>
      rcases ih st3 st2 h f hf with hin | hsw
      · exact runStep_files env root hroot s st st3 hstep f hin
      · exact Or.inr hsw
    case h_2 e hstep =>
      exact absurd h (by simp)

theorem buildPlanAction_initFiles (env : Env) (root : String) (mf : Manifest)
    (release : Release) (ctx : TemplateContext) (acc acc2 : Plan × List Artifact)
    (act : Action) (h : buildPlanAction env root mf release ctx acc act = .ok acc2)
    (habs : actionAbs ctx act = true) :
    ∀ f ∈ acc2.1.initFiles, f ∈ acc.1.initFiles ∨
      strStartsWith f.path "/" = true := by
  intro f hf
  cases act with
  | mkdir a =>
    cases h
    rcases List.mem_append.mp hf with hin | hin
    · exact Or.inl hin
    · rcases List.mem_singleton.mp hin with rfl
      exact Or.inr habs
  | symlink a =>
    cases h
    rcases List.mem_append.mp hf with hin | hin
    · exact Or.inl hin
    · rcases List.mem_singleton.mp hin with rfl
      exact Or.inr habs
  | file a =>
    simp only [buildPlanAction] at h
    split at h
    · exact absurd h (by simp)
    · cases h
      rcases List.mem_append.mp hf with hin | hin
      · exact Or.inl hin
      · rcases List.mem_singleton.mp hin with rfl
        exact Or.inr habs
  | url a =>
    simp only [buildPlanAction] at h
    split at h
    · exact absurd h (by simp)
    · cases h
      rcases List.mem_append.mp hf with hin | hin
      · exact Or.inl hin
      · rcases List.mem_singleton.mp hin with rfl
        exact Or.inr habs
  | asset a =>
    simp only [buildPlanAction] at h
    split at h
    · exact absurd h (by simp)
    · split at h
      · exact absurd h (by simp)
      · cases h
        rcases List.mem_append.mp hf with hin | hin
        · exact Or.inl hin
        · rcases List.mem_singleton.mp hin with rfl
          exact Or.inr habs
  | extract a =>
    simp only [buildPlanAction] at h
    split at h
    · exact absurd h (by simp)
    · cases h
      exact Or.inl hf

theorem buildPlanGo_initFiles (env : Env) (root : String) (mf : Manifest)
    (release : Release) (ctx : TemplateContext) :
    ∀ (acts : List Action) (acc : Plan × List Artifact)
      (plan : Plan) (arts : List Artifact),
    buildPlanGo env root mf release ctx acts acc = .ok (plan, arts) →
    (∀ a ∈ acts, actionAbs ctx a = true) →
    (∀ f ∈ acc.1.initFiles, strStartsWith f.path "/" = true) →
    ∀ f ∈ plan.initFiles, strStartsWith f.path "/" = true := by
  intro acts
  induction acts with
  | nil =>
    intro acc plan arts h habs hacc f hf
    cases h
    exact hacc f hf
  | cons act rest ih =>
    intro acc plan arts h habs hacc f hf
    simp only [buildPlanGo] at h
    split at h
    · exact absurd h (by simp)
    case h_2 acc2 hstep =>
      refine ih acc2 plan arts h
        (fun a ha => habs a (List.mem_cons_of_mem _ ha)) ?_ f hf
      intro g hg
      rcases buildPlanAction_initFiles env root mf release ctx acc acc2 act
          hstep (habs act (List.mem_cons_self _ _)) g hg with hin | hsw
      · exact hacc g hin
      · exact hsw

/-- C1 (amended): Install raises InstallConflict iff some planned target,
    after normalising to a root-relative path, is owned by a different
    package, or exists on disk, is not owned by the installing package, and
    `--force` is not set; when raised, the error lists every offending path
    (the conflict list is exactly characterised below) and the whole system
    state is returned unchanged, so it precedes any plan-step mutation. -/
theorem c1_conflict_characterization (env : Env) (root : String) (sys : Sys)
    (name : String) (opts : InstallOptions) (mf : Manifest)
    (resolved : String) (release : Release) (plan : Plan)
    (arts : List Artifact)
    (hmf : env.loadManifest name = .ok mf)
    (hearly : installEarly env sys mf opts = none)
    (hres : resolveVersion env mf opts.version = .ok (resolved, release))
    (hplan : buildPlan env root mf release (mkCtx env mf resolved) =
      .ok (plan, arts)) :
    (∀ r, r ∈ checkConflicts root sys.disk (buildOwnership sys.store) name
        opts.force plan.targets ↔
      ∃ t ∈ plan.targets, normalizePathForReceipt root t = r ∧
        ((∃ o, lookupA (buildOwnership sys.store)
            (normalizePathForReceipt root t) = some o ∧ o ≠ name) ∨
         (osStat sys.disk t = true ∧ opts.force = false ∧
           ¬okOwned (buildOwnership sys.store)
             (normalizePathForReceipt root t) name = true))) ∧
    (checkConflicts root sys.disk (buildOwnership sys.store) name opts.force
        plan.targets ≠ [] →
      Install env root sys name opts =
        (.error ("install conflicts: " ++ joinComma (checkConflicts root
          sys.disk (buildOwnership sys.store) name opts.force plan.targets)),
         sys)) ∧
    (checkConflicts root sys.disk (buildOwnership sys.store) name opts.force
        plan.targets = [] → opts.dryRun = false →
      ∀ st, runSteps env root plan.steps
          { disk := sys.disk, files := plan.initFiles } = (none, st) →
        ∃ rcpt sys2, Install env root sys name opts = (.ok rcpt, sys2)) := by
  refine ⟨fun r => mem_checkConflicts root sys.disk _ name opts.force
    plan.targets r, ?_, ?_⟩
  · intro hne
    simp only [Install, hmf, hearly, hres, hplan]
    rw [if_pos hne]
  · intro hnil hdry st hrun
    simp only [Install, hmf, hearly, hres, hplan, hnil, hdry, hrun]
    exact ⟨_, _, rfl⟩

/-- Witness for C1 at the fixture where package `p` owns the planned
    target of package `q` and `--force` is set: the conflict is raised,
    listing the offender, with the state unchanged. -/
theorem c1_conflict_characterization_witness :
    checkConflicts "/" sys1.disk (buildOwnership sys1.store) "q" true
      ["/usr/local/bin/foo"] ≠ [] ∧
    Install env1 "/" sys1 "q" { version := "v1", force := true } =
      (.error ("install conflicts: " ++ joinComma (checkConflicts "/"
        sys1.disk (buildOwnership sys1.store) "q" true
        ["/usr/local/bin/foo"])), sys1) := by
  have h := c1_conflict_characterization env1 "/" sys1 "q"
    { version := "v1", force := true } mf1 "v1" emptyRelease
    { steps := [.stepMkdir "/usr/local/bin/foo"],
      targets := ["/usr/local/bin/foo"],
      initFiles := [{ path := "/usr/local/bin/foo", type := "dir" }] } []
    (by decide) (by decide) (by decide) (by decide)
  exact ⟨by decide, h.2.1 (by decide)⟩

/-- C2: if any mutation step fails, Install stops at that step, returns
    the step's error with the disk as mutated so far, and leaves the state
    directory untouched: the receipt is not written, the installed index is
    not updated, and the package stays recorded at its previous version. -/
theorem c2_step_failure_aborts (env : Env) (root : String) (sys : Sys)
    (name : String) (opts : InstallOptions) (mf : Manifest)
    (resolved : String) (release : Release) (plan : Plan)
    (arts : List Artifact) (e : String) (stF : StepState)
    (hmf : env.loadManifest name = .ok mf)
    (hearly : installEarly env sys mf opts = none)
    (hres : resolveVersion env mf opts.version = .ok (resolved, release))
    (hplan : buildPlan env root mf release (mkCtx env mf resolved) =
      .ok (plan, arts))
    (hnoconf : checkConflicts root sys.disk (buildOwnership sys.store) name
      opts.force plan.targets = [])
    (hdry : opts.dryRun = false)
    (hrun : runSteps env root plan.steps
      { disk := sys.disk, files := plan.initFiles } = (some e, stF)) :
    Install env root sys name opts =
      (.error e, { sys with disk := stF.disk }) ∧
    (Install env root sys name opts).2.store = sys.store ∧
    lookupA (Install env root sys name opts).2.store.installed mf.name =
      lookupA sys.store.installed mf.name ∧
    lookupA (Install env root sys name opts).2.store.receipts mf.name =
      lookupA sys.store.receipts mf.name := by
  have hmain : Install env root sys name opts =
      (.error e, { sys with disk := stF.disk }) := by
    simp only [Install, hmf, hearly, hres, hplan, hnoconf, hdry, hrun]
    simp
  refine ⟨hmain, ?_, ?_, ?_⟩ <;> rw [hmain]

/-- Witness for C2: the fixture whose single mkdir step hits a regular
    file on the directory chain; the step errors, Install reports it, and
    `pkg2` stays recorded at `v0` with no receipt written. -/
theorem c2_step_failure_aborts_witness :
    runSteps env2 "/" [.stepMkdir "/data/sub"]
      { disk := sys2.disk,
        files := [{ path := "/data/sub", type := "dir" }] } =
      (some "mkdir /data: not a directory",
       { disk := sys2.disk,
         files := [{ path := "/data/sub", type := "dir" }] }) ∧
    Install env2 "/" sys2 "pkg2" { version := "v1" } =
      (.error "mkdir /data: not a directory", { sys2 with disk := sys2.disk }) ∧
    lookupA ((Install env2 "/" sys2 "pkg2"
      { version := "v1" }).2.store.installed) "pkg2" =
      some { version := "v0" } := by
  have h := c2_step_failure_aborts env2 "/" sys2 "pkg2" { version := "v1" }
    mf2 "v1" emptyRelease
    { steps := [.stepMkdir "/data/sub"],
      targets := ["/data/sub"],
      initFiles := [{ path := "/data/sub", type := "dir" }] } []
    "mkdir /data: not a directory"
    { disk := sys2.disk, files := [{ path := "/data/sub", type := "dir" }] }
    (by decide) (by decide) (by decide) (by decide) (by decide) rfl
    (by decide)
  refine ⟨by decide, h.1, ?_⟩
  rw [h.1]
  decide

/-- C3 (counterexample): package `p3` is recorded in the installed index,
    force is unset and the resolver returns exactly the recorded tag, yet
    this second Install is not a no-op: the receipt file is missing, so the
    early exit falls through and the install mutates the disk and writes a
    receipt. -/
theorem c3_counterexample :
    lookupA sys3.store.installed "p3" =
      some { version := "v1", receipt := "receipts/p3.json" } ∧
    resolveVersion env3 mf3 "" =
      .ok ("v1", { tag := "v1", id := 7 }) ∧
    (Install env3 "/" sys3 "p3" {}).2.disk ≠ sys3.disk ∧
    (Install env3 "/" sys3 "p3" {}).2.store.receipts ≠
      sys3.store.receipts := by
  decide

/-- C3 (amended): a second Install is a no-op returning the existing
    receipt — with no filesystem mutation, receipt write or index update —
    when the package is recorded, force is unset, the resolver returns the
    same tag as the recorded version, that tag is non-empty, and the
    existing receipt file loads. -/
theorem c3_idempotent_install (env : Env) (root : String) (sys : Sys)
    (name : String) (opts : InstallOptions) (mf : Manifest)
    (entry : InstalledEntry) (resolved : String) (release : Release)
    (rcpt : Receipt)
    (hmf : env.loadManifest name = .ok mf)
    (hentry : lookupA sys.store.installed mf.name = some entry)
    (hforce : opts.force = false)
    (hres : resolveVersion env mf opts.version = .ok (resolved, release))
    (hne : resolved ≠ "")
    (heq : resolved = entry.version)
    (hrcpt : lookupA sys.store.receipts mf.name = some rcpt) :
    Install env root sys name opts = (.ok rcpt, sys) := by
  have hearly : installEarly env sys mf opts = some (.ok rcpt) := by
    simp only [installEarly, hentry, hforce, hres, hrcpt]
    rw [if_pos ⟨hne, heq⟩]
  simp only [Install, hmf, hearly]

/-- Witness for C3 at a sourceless package pinned to `v1`: the recorded
    version matches the requested one and the stored receipt is returned
    with the system untouched. -/
theorem c3_idempotent_install_witness :
    lookupA sys3w.store.installed "p3w" = some { version := "v1" } ∧
    resolveVersion env3w mf3w "v1" = .ok ("v1", emptyRelease) ∧
    Install env3w "/" sys3w "p3w" { version := "v1" } =
      (.ok rcpt3w, sys3w) := by
  refine ⟨by decide, by decide, ?_⟩
  exact c3_idempotent_install env3w "/" sys3w "p3w" { version := "v1" }
    mf3w { version := "v1" } "v1" emptyRelease rcpt3w
    (by decide) (by decide) (by decide) (by decide) (by decide) (by decide)
    (by decide)

/-- C4: for every receipt entry processed by Remove: an entry with
    `preserve` set and no `--purge` is skipped, leaving its path exactly as
    it was (first conjunct after success); otherwise `os.Remove(root/path)`
    is applied, so a path holding a file, symlink or childless node ends up
    absent (third conjunct), and a path that was already absent stays
    absent while Remove still reports success (second and first
    conjuncts) — absence is not an error. -/
theorem c4_remove_preserve_rule (root : String) (sys : Sys) (name : String)
    (opts : RemoveOptions) (rcpt : Receipt)
    (hr : lookupA sys.store.receipts name = some rcpt) :
    (Remove root sys name opts).1 = .ok () ∧
    (∀ p, (∀ f ∈ rcpt.files, goJoin root f.path = p →
        (f.preserve = true ∧ opts.purge = false)) →
      diskGet (Remove root sys name opts).2.disk p = diskGet sys.disk p) ∧
    (∀ f ∈ rcpt.files, ¬(f.preserve = true ∧ opts.purge = false) →
      (f.type = "file" ∨ f.type = "symlink" ∨ f.type = "dir") →
      diskGet sys.disk (goJoin root f.path) ≠ some .dir →
      diskHasChild sys.disk (goJoin root f.path) = false →
      diskGet (Remove root sys name opts).2.disk (goJoin root f.path) =
        none) := by
  have hrem : Remove root sys name opts =
      (.ok (), { sys with
        disk := removeEntries root opts.purge rcpt.files sys.disk,
        store := RecordRemove
          { sys.store with receipts :=
              sys.store.receipts.filter (fun e => e.1 ≠ name) } name }) := by
    simp only [Remove, hr]
  rw [hrem]
  refine ⟨rfl, ?_, ?_⟩
  · intro p hp
    exact removeEntries_skipped root opts.purge rcpt.files sys.disk p hp
  · intro f hf hskip htype hnod hnoc
    exact removeEntries_removes root opts.purge f hskip htype rcpt.files
      sys.disk hf hnod hnoc

/-- Witness for C4 at the fixture receipt: Remove succeeds, the preserved
    `/etc/conf` keeps its node, `/bin/tool` is deleted, and the
    already-absent `/gone` stays absent without failing the command. -/
theorem c4_remove_preserve_rule_witness :
    (Remove "/" sys4 "p4" {}).1 = .ok () ∧
    diskGet (Remove "/" sys4 "p4" {}).2.disk "/etc/conf" =
      some (.file 420 "c" 1) ∧
    diskGet (Remove "/" sys4 "p4" {}).2.disk "/bin/tool" = none ∧
    diskGet (Remove "/" sys4 "p4" {}).2.disk "/gone" = none := by
  have h := c4_remove_preserve_rule "/" sys4 "p4" {} rcpt4 (by decide)
  refine ⟨h.1, ?_, ?_, ?_⟩
  · have := h.2.1 "/etc/conf" (by decide)
    rw [this]; decide
  · exact h.2.2 { path := "/bin/tool", type := "file" } (by decide)
      (by decide) (by decide) (by decide) (by decide)
  · exact h.2.2 { path := "/gone", type := "file" } (by decide)
      (by decide) (by decide) (by decide) (by decide)

/-- C9: Remove discards every on-disk deletion failure — not only
    absence — and still deletes the receipt and drops the package from the
    installed index, reporting success; the witness shows a non-empty
    directory entry silently left in place. -/
theorem c9_remove_ignores_failures (root : String) (sys : Sys) (name : String)
    (opts : RemoveOptions) (rcpt : Receipt)
    (hr : lookupA sys.store.receipts name = some rcpt) :
    (Remove root sys name opts).1 = .ok () ∧
    lookupA (Remove root sys name opts).2.store.receipts name = none ∧
    lookupA (Remove root sys name opts).2.store.installed name = none := by
  have hrem : Remove root sys name opts =
      (.ok (), { sys with
        disk := removeEntries root opts.purge rcpt.files sys.disk,
        store := RecordRemove
          { sys.store with receipts :=
              sys.store.receipts.filter (fun e => e.1 ≠ name) } name }) := by
    simp only [Remove, hr]
  rw [hrem]
  refine ⟨rfl, ?_, ?_⟩
  · simpa using (lookupA_filter sys.store.receipts name name).trans
      (if_pos rfl)
  · simp only [RecordRemove]
    simpa using (lookupA_filter sys.store.installed name name).trans
      (if_pos rfl)

/-- Witness for C9: the non-empty directory `/data` survives its failed
    deletion (its unlisted child `/data/keep` is intact too), yet Remove
    succeeds, the receipt is gone and `p9` is no longer in the installed
    index. -/
theorem c9_remove_ignores_failures_witness :
    (Remove "/" sys9 "p9" {}).1 = .ok () ∧
    diskGet (Remove "/" sys9 "p9" {}).2.disk "/data" = some .dir ∧
    diskGet (Remove "/" sys9 "p9" {}).2.disk "/data/keep" =
      some (.file 420 "k" 1) ∧
    lookupA (Remove "/" sys9 "p9" {}).2.store.receipts "p9" = none ∧
    lookupA (Remove "/" sys9 "p9" {}).2.store.installed "p9" = none := by
  have h := c9_remove_ignores_failures "/" sys9 "p9" {} rcpt9 (by decide)
  exact ⟨h.1, by decide, by decide, h.2.1, h.2.2⟩

/-- C5 (counterexample): a mkdir action whose manifest path is relative is
    stored in the receipt verbatim, so with root `/opt` (not `/`) the
    stored path does not begin with `/`, refuting the claim that every
    stored path begins with `/` whenever the root is not `/`. -/
theorem c5_counterexample :
    ("/opt" : String) ≠ "/" ∧
    ((Install env5 "/opt" {} "p5" {}).1.toOption.map
      (fun r => r.files.map (fun f => f.path))) = some ["usr/test"] ∧
    strStartsWith "usr/test" "/" = false := by
  decide

/-- C5 (amended): receipt file paths are root-relative (plan-time entries
    store the expanded manifest path verbatim, extract entries store the
    root-normalised target), and when the root is not `/` every stored
    path begins with `/` provided each non-extract action's expanded
    target or path is absolute, as the manifest reference requires; extract
    entries begin with `/` unconditionally. -/
theorem c5_receipt_paths (env : Env) (root : String) (sys : Sys)
    (name : String) (opts : InstallOptions) (mf : Manifest)
    (resolved : String) (release : Release) (plan : Plan)
    (arts : List Artifact) (st : StepState)
    (hroot : root ≠ "/")
    (hmf : env.loadManifest name = .ok mf)
    (hearly : installEarly env sys mf opts = none)
    (hres : resolveVersion env mf opts.version = .ok (resolved, release))
    (hplan : buildPlan env root mf release (mkCtx env mf resolved) =
      .ok (plan, arts))
    (hnoconf : checkConflicts root sys.disk (buildOwnership sys.store) name
      opts.force plan.targets = [])
    (hdry : opts.dryRun = false)
    (hrun : runSteps env root plan.steps
      { disk := sys.disk, files := plan.initFiles } = (none, st))
    (habs : ∀ a ∈ mf.install, actionAbs (mkCtx env mf resolved) a = true) :
    ∃ rcpt, (Install env root sys name opts).1 = .ok rcpt ∧
      rcpt.files = st.files ∧
      ∀ f ∈ rcpt.files, strStartsWith f.path "/" = true := by
  have hinit : ∀ f ∈ plan.initFiles, strStartsWith f.path "/" = true := by
    refine buildPlanGo_initFiles env root mf release (mkCtx env mf resolved)
      mf.install ({}, []) plan arts hplan habs ?_
    intro f hf
    exact absurd hf (List.not_mem_nil f)
  have hfiles : ∀ f ∈ st.files, strStartsWith f.path "/" = true := by
    intro f hf
    rcases runSteps_files env root hroot plan.steps
        { disk := sys.disk, files := plan.initFiles } st hrun f hf with
      hin | hsw
    · exact hinit f hin
    · exact hsw
  have hmain : (Install env root sys name opts).1 =
      .ok { schema := 1, name := mf.name,
            source := { kind := mf.source.kind, repo := mf.source.repo,
                        tag := resolved, releaseId := release.id },
            platform := { os := env.goos, arch := env.goarch },
            artifacts := arts, files := st.files } := by
    simp only [Install, hmf, hearly, hres, hplan, hnoconf, hdry, hrun]
    simp
  exact ⟨_, hmain, rfl, hfiles⟩

/-- Witness for C5 at the six-action fixture (mkdir, symlink, url, asset,
    file, extract) under root `/base`: the install succeeds and every path
    in the produced receipt begins with `/`. -/
theorem c5_receipt_paths_witness :
    (∀ a ∈ mf5w.install, actionAbs (mkCtx env5w mf5w "v1") a = true) ∧
    ∃ rcpt, (Install env5w "/base" {} "tool" {}).1 = .ok rcpt ∧
      rcpt.files = (runSteps env5w "/base" plan5w.steps
        { disk := [], files := plan5w.initFiles }).2.files ∧
      ∀ f ∈ rcpt.files, strStartsWith f.path "/" = true := by
  refine ⟨by decide, ?_⟩
  exact c5_receipt_paths env5w "/base" {} "tool" {} mf5w "v1" rel5w plan5w
    arts5w (runSteps env5w "/base" plan5w.steps
      { disk := [], files := plan5w.initFiles }).2
    (by decide) (by decide) (by decide) (by decide) (by decide) (by decide)
    (by decide) (by decide) (by decide)

/-- C10: the conflict check compares ownership against the caller-supplied
    package name, while the ownership map is keyed by the manifest's name;
    when these differ, a planned target recorded in the installed index
    under the manifest's name is reported as an InstallConflict even though
    it belongs to the package being installed. -/
theorem c10_name_mismatch_conflict (env : Env) (root : String) (sys : Sys)
    (name : String) (opts : InstallOptions) (mf : Manifest)
    (resolved : String) (release : Release) (plan : Plan)
    (arts : List Artifact) (r t : String)
    (hmf : env.loadManifest name = .ok mf)
    (hname : mf.name ≠ name)
    (hearly : installEarly env sys mf opts = none)
    (hres : resolveVersion env mf opts.version = .ok (resolved, release))
    (hplan : buildPlan env root mf release (mkCtx env mf resolved) =
      .ok (plan, arts))
    (hown : lookupA (buildOwnership sys.store) r = some mf.name)
    (ht : t ∈ plan.targets)
    (hrel : normalizePathForReceipt root t = r) :
    r ∈ checkConflicts root sys.disk (buildOwnership sys.store) name
      opts.force plan.targets ∧
    Install env root sys name opts =
      (.error ("install conflicts: " ++ joinComma (checkConflicts root
        sys.disk (buildOwnership sys.store) name opts.force plan.targets)),
       sys) := by
  have hmem : r ∈ checkConflicts root sys.disk (buildOwnership sys.store)
      name opts.force plan.targets := by
    refine (mem_checkConflicts root sys.disk _ name opts.force
      plan.targets r).mpr ⟨t, ht, hrel, Or.inl ⟨mf.name, ?_, hname⟩⟩
    rw [hrel]
    exact hown
  have hne : checkConflicts root sys.disk (buildOwnership sys.store) name
      opts.force plan.targets ≠ [] := by
    intro hc
    rw [hc] at hmem
    exact List.not_mem_nil r hmem
  refine ⟨hmem, ?_⟩
  simp only [Install, hmf, hearly, hres, hplan]
  rw [if_pos hne]

/-- Witness for C10: the CLI name `dir10` loads manifest `pkg10`, which is
    installed and owns `/bin/tool10`; reinstalling through `dir10` reports
    that very path as a conflict. -/
theorem c10_name_mismatch_conflict_witness :
    mf10.name ≠ "dir10" ∧
    lookupA (buildOwnership sys10.store) "/bin/tool10" = some "pkg10" ∧
    "/bin/tool10" ∈ checkConflicts "/" sys10.disk
      (buildOwnership sys10.store) "dir10" true ["/bin/tool10"] ∧
    Install env10 "/" sys10 "dir10" { version := "v1", force := true } =
      (.error ("install conflicts: " ++ joinComma (checkConflicts "/"
        sys10.disk (buildOwnership sys10.store) "dir10" true
        ["/bin/tool10"])), sys10) := by
  have h := c10_name_mismatch_conflict env10 "/" sys10 "dir10"
    { version := "v1", force := true } mf10 "v1" emptyRelease
    { steps := [.stepMkdir "/bin/tool10"],
      targets := ["/bin/tool10"],
      initFiles := [{ path := "/bin/tool10", type := "dir" }] } []
    "/bin/tool10" "/bin/tool10"
    (by decide) (by decide) (by decide) (by decide) (by decide) (by decide)
    (by decide) (by decide)
  exact ⟨by decide, by decide, h.1, h.2⟩

/-- Witness for C7 at `v1.10.0` versus `v1.9.0` with distinct timestamps:
    the parses succeed and the general conjunct plus the boundary
    equalities are obtained from the theorem. -/
theorem c7_semver_ordering_witness :
    parseSemver "v1.10.0" = some (1, 10, 0) ∧
    parseSemver "v1.9.0" = some (1, 9, 0) ∧
    (compareReleases "v1.10.0" "v1.9.0" 3 4 = 1 ↔
      (toInt64 1 < toInt64 1 ∨
        (toInt64 1 = toInt64 1 ∧
          (toInt64 9 < toInt64 10 ∨
            (toInt64 10 = toInt64 9 ∧ toInt64 0 < toInt64 0))))) := by
  refine ⟨by decide, by decide, ?_⟩
  exact (c7_semver_ordering.1 "v1.10.0" "v1.9.0" 3 4 (1, 10, 0) (1, 9, 0)
    (by decide) (by decide)).1

end Ghpm
